import Mathlib

/-!
# Genetic-Racing: a shallow embedding of `src/main.js`

The simulation core of the repository (utility functions, `getIntersection`,
`Car`, `Brain`, `mutate`, `crossover`, `init`, `evolve`) is transcribed into
Lean definitions, followed by theorems about them.

Modelling conventions.

* JavaScript numbers are rationals (`ℚ`); `NaN` and the infinities are outside
  the model.  A computation that would produce `NaN` from an out-of-range
  array read stops the model (`JsError.nanValue`).
* The ray casting (`getIntersection` and the construction of the rays), whose
  comparisons decide whether a hit is reported, rounds after every operation
  with `MathFns.fl`: `fl64` gives the arithmetic of IEEE doubles, the identity
  gives exact arithmetic, and the theorems hold for every rounding.  All other
  arithmetic is exact.
* `Math.cos`, `Math.sin`, `Math.tanh`, `Math.hypot`, `Math.atan2` are not
  rational functions; they are supplied as a parameter (`MathFns`) and every
  theorem holds for every choice of them.
* `Math.random()` reads a stream `rng : Nat → ℚ` at a cursor and advances the
  cursor; theorems that need it assume `0 ≤ rng k < 1`.
* Mutable objects are passed and returned explicitly.  An uncaught
  `TypeError` is the outcome `Outcome.stopped`, carrying the state as mutated
  up to the throw.
* The DOM (canvas, sliders, labels) is not modelled; `populationSize` and the
  mutation rate are plain values.
-/

namespace GeneticRacing

/-! ## Host functions and utilities -/

/-- The functions of the JavaScript `Math` object that the simulation calls. -/
structure MathFns where
  cos : ℚ → ℚ
  sin : ℚ → ℚ
  tanh : ℚ → ℚ
  hypot : ℚ → ℚ → ℚ
  atan2 : ℚ → ℚ → ℚ
  /-- The rounding that follows every arithmetic operation of the ray casting
  (`getIntersection` and the construction of the rays): `fl64` for IEEE
  doubles, the identity for exact arithmetic. -/
  fl : ℚ → ℚ

/-- The number of halvings that bring `n` below 2, with a step bound. -/
def log2Steps : Nat → Nat → Nat
  | 0, _ => 0
  | k + 1, n => if 2 ≤ n then log2Steps k (n / 2) + 1 else 0

/-- The position of the leading bit of `n`: `⌊log₂ n⌋` for `n ≥ 1`. -/
def ilog2 (n : Nat) : Nat := log2Steps n n

/-- The value `q / 2^e` for an integer exponent `e`. -/
def scale2 (q : ℚ) (e : ℤ) : ℚ :=
  if 0 ≤ e then q / ((2 ^ e.toNat : ℕ) : ℚ) else q * ((2 ^ (-e).toNat : ℕ) : ℚ)

/-- The rounding of IEEE 754 binary64 arithmetic: the double nearest to `q`,
ties to the even significand, for `q` in the range of normal doubles (no
overflow, no subnormal results).  `e` is the exponent with
`2^52 ≤ |q| / 2^e < 2^53` and `mant` the rounded 53-bit significand. -/
def fl64 (q : ℚ) : ℚ :=
  if q = 0 then 0
  else
    let a := |q|
    let e0 : ℤ := (ilog2 a.num.natAbs : ℤ) - (ilog2 a.den : ℤ) - 52
    let e : ℤ := if scale2 a e0 < 2 ^ 52 then e0 - 1 else e0
    let s := scale2 a e
    let f : ℤ := ⌊s⌋
    let r := s - (f : ℚ)
    let mant : ℤ :=
      if r < 1 / 2 then f else if 1 / 2 < r then f + 1 else if f % 2 = 0 then f else f + 1
    let v := scale2 (mant : ℚ) (-e)
    if 0 < q then v else -v

/-- The constant `Math.PI`, i.e. the double nearest to π, as a rational. -/
def Math_PI : ℚ := 884279719003555 / 281474976710656

/-- The stream read by `Math.random()`. -/
abbrev Rng := Nat → ℚ

/-- The contract of `Math.random()`: every draw lies in `[0, 1)`. -/
def Rng.Valid (rng : Rng) : Prop := ∀ k, 0 ≤ rng k ∧ rng k < 1

/-- `Math.floor(v)` for a value used as an array index or slice bound.  The
argument is a draw in `[0, 1)` times a length, so it is never negative. -/
def floorIdx (v : ℚ) : Nat := ⌊v⌋₊

/-- `function rand(min=-1,max=1){return Math.random()*(max-min)+min}`,
given the draw `r` of `Math.random()`. -/
def rand (r : ℚ) (min : ℚ := -1) (max : ℚ := 1) : ℚ := r * (max - min) + min

/-- `function clamp(v,a,b){return Math.max(a,Math.min(b,v))}`. -/
def clamp (v a b : ℚ) : ℚ := Max.max a (Min.min b v)

/-- `function lerp(a,b,t){return a+(b-a)*t}`. -/
def lerp (a b t : ℚ) : ℚ := a + (b - a) * t

/-- A point `{x, y}`. -/
structure Point where
  x : ℚ
  y : ℚ
deriving DecidableEq

/-- The reasons for which the model stops before a function returns. -/
inductive JsError where
  /-- A property of `undefined` was read: JavaScript throws a `TypeError`. -/
  | typeError
  /-- An array was read out of range inside arithmetic: the value is `NaN`. -/
  | nanValue
deriving DecidableEq

/-- The outcome of running a state-mutating function on a state `σ`. -/
inductive Outcome (σ : Type) where
  /-- The function returned; `s` is the state it leaves. -/
  | returned (s : σ)
  /-- The model stopped with `e`; `s` is the state as mutated so far. -/
  | stopped (e : JsError) (s : σ)
deriving DecidableEq

/-! ## Genetic operators -/

/-- The body of `crossover(a, b)` after the cut index `pt` has been drawn:
`a.slice(0,pt).concat(b.slice(pt))`. -/
def crossoverAt (pt : Nat) (a b : List ℚ) : List ℚ := a.take pt ++ b.drop pt

/-- `crossover(a, b)`, given the draw `r` of `Math.random()`:
`pt = Math.floor(Math.random()*a.length)`. -/
def crossover (r : ℚ) (a b : List ℚ) : List ℚ :=
  crossoverAt (floorIdx (r * (a.length : ℚ))) a b

/-- `mutate(genes, rate)`: `genes.map(g => Math.random()<rate ? g + rand()*0.5 : g)`.
Each gene takes one draw, and a second one when it is perturbed. -/
def mutate (rng : Rng) (rate : ℚ) : List ℚ → Nat → List ℚ × Nat
  | [], k => ([], k)
  | g :: gs, k =>
    if rng k < rate then
      let r := mutate rng rate gs (k + 2)
      ((g + rand (rng (k + 1)) * (1 / 2)) :: r.1, r.2)
    else
      let r := mutate rng rate gs (k + 1)
      (g :: r.1, r.2)

/-! ## Line intersection -/

/-- The object `{x, y, offset}` returned by `getIntersection` on a hit. -/
structure Hit where
  x : ℚ
  y : ℚ
  offset : ℚ
deriving DecidableEq

/-- `tTop` of `getIntersection`, in exact arithmetic. -/
def tTop (A _B C D : Point) : ℚ := (D.x - C.x) * (A.y - C.y) - (D.y - C.y) * (A.x - C.x)

/-- `uTop` of `getIntersection`, in exact arithmetic. -/
def uTop (A B C _D : Point) : ℚ := (C.y - A.y) * (A.x - B.x) - (C.x - A.x) * (A.y - B.y)

/-- `bottom` of `getIntersection`, in exact arithmetic. -/
def bottom (A B C D : Point) : ℚ := (D.y - C.y) * (B.x - A.x) - (D.x - C.x) * (B.y - A.y)

/-- `lerp(a,b,t)` as the ray casting computes it, `a+(b-a)*t` with the rounding
`m.fl` after each operation. -/
def lerpR (m : MathFns) (a b t : ℚ) : ℚ := m.fl (a + m.fl (m.fl (b - a) * t))

/-- `tTop` as computed: `(D.x - C.x) * (A.y - C.y) - (D.y - C.y) * (A.x - C.x)`,
each operation rounded. -/
def tTopR (m : MathFns) (A _B C D : Point) : ℚ :=
  m.fl (m.fl (m.fl (D.x - C.x) * m.fl (A.y - C.y)) - m.fl (m.fl (D.y - C.y) * m.fl (A.x - C.x)))

/-- `uTop` as computed: `(C.y - A.y) * (A.x - B.x) - (C.x - A.x) * (A.y - B.y)`,
each operation rounded. -/
def uTopR (m : MathFns) (A B C _D : Point) : ℚ :=
  m.fl (m.fl (m.fl (C.y - A.y) * m.fl (A.x - B.x)) - m.fl (m.fl (C.x - A.x) * m.fl (A.y - B.y)))

/-- `bottom` as computed: `(D.y - C.y) * (B.x - A.x) - (D.x - C.x) * (B.y - A.y)`,
each operation rounded. -/
def bottomR (m : MathFns) (A B C D : Point) : ℚ :=
  m.fl (m.fl (m.fl (D.y - C.y) * m.fl (B.x - A.x)) - m.fl (m.fl (D.x - C.x) * m.fl (B.y - A.y)))

/-- `const t = tTop / bottom` as computed. -/
def tParam (m : MathFns) (A B C D : Point) : ℚ := m.fl (tTopR m A B C D / bottomR m A B C D)

/-- `const u = uTop / bottom` as computed. -/
def uParam (m : MathFns) (A B C D : Point) : ℚ := m.fl (uTopR m A B C D / bottomR m A B C D)

/-- `getIntersection(A, B, C, D)`; `none` is the JavaScript `null`. -/
def getIntersection (m : MathFns) (A B C D : Point) : Option Hit :=
  if bottomR m A B C D ≠ 0 then
    let t := tParam m A B C D
    let u := uParam m A B C D
    if 0 ≤ t ∧ t ≤ 1 ∧ 0 ≤ u ∧ u ≤ 1 then
      some { x := lerpR m A.x B.x t, y := lerpR m A.y B.y t, offset := t }
    else none
  else none

/-! ## Track -/

/-- The object `track.start`. -/
structure Start where
  x : ℚ
  y : ℚ
  angle : ℚ
deriving DecidableEq

/-- The global `track`. -/
structure Track where
  centerLine : List Point
  innerWall : List Point
  outerWall : List Point
  checkpoints : List Point
  start : Start
  width : ℚ

/-! ## Brain -/

/-- The class `Brain`.  `lastInputs`, `lastHidden`, `lastOutput` are `none`
until `predict` has been called (`undefined` in JavaScript). -/
structure Brain where
  i : Nat
  h : Nat
  o : Nat
  weights : List ℚ
  lastInputs : Option (List ℚ)
  lastHidden : Option (List ℚ)
  lastOutput : Option (List ℚ)
deriving DecidableEq

/-- The loop `for(k=0; k<n; k++) this.weights.push(rand()*2)` of the `Brain`
constructor: `n` pushes left, `acc` the weights so far, `k` the random cursor. -/
def drawWeights (rng : Rng) : Nat → List ℚ → Nat → List ℚ × Nat
  | 0, acc, k => (acc, k)
  | n + 1, acc, k => drawWeights rng n (acc ++ [rand (rng k) * 2]) (k + 1)

/-- `new Brain(inputSize, hiddenSize, outputSize)` without a weight array:
the weights are drawn at random. -/
def Brain.fresh (rng : Rng) (k : Nat) (i : Nat := 11) (h : Nat := 12) (o : Nat := 2) :
    Brain × Nat :=
  let r := drawWeights rng ((i + 1) * h + (h + 1) * o) [] k
  ({ i := i, h := h, o := o, weights := r.1,
     lastInputs := none, lastHidden := none, lastOutput := none }, r.2)

/-- `new Brain(inputSize, hiddenSize, outputSize, weights)` with a weight
array (an array is always truthy): `this.weights = weights.slice()`. -/
def Brain.ofWeights (i h o : Nat) (weights : List ℚ) : Brain :=
  { i := i, h := h, o := o, weights := weights,
    lastInputs := none, lastHidden := none, lastOutput := none }

/-- `clone(){ return new Brain(this.i,this.h,this.o,this.weights); }`. -/
def Brain.clone (b : Brain) : Brain := Brain.ofWeights b.i b.h b.o b.weights

/-- `getGenes(){ return this.weights.slice(); }`. -/
def Brain.getGenes (b : Brain) : List ℚ := b.weights

/-- `setGenes(arr){ this.weights = arr.slice(); }`. -/
def Brain.setGenes (b : Brain) (arr : List ℚ) : Brain := { b with weights := arr }

/-- The inner loop of `predict`, `for(i=0; i<n; i++) sum += xs[i] * this.weights[wIdx++]`:
`n` iterations left, `i` the loop index.  `none` when a read is out of range. -/
def weightedSum (xs ws : List ℚ) : Nat → Nat → Nat → ℚ → Option (ℚ × Nat)
  | 0, _, wIdx, sum => some (sum, wIdx)
  | n + 1, i, wIdx, sum =>
    match xs[i]?, ws[wIdx]? with
    | some x, some w => weightedSum xs ws n (i + 1) (wIdx + 1) (sum + x * w)
    | _, _ => none

/-- One unit of a dense layer: the weighted sum over `n` inputs, then
`sum += this.weights[wIdx++]` (bias), then `Math.tanh(sum)`. -/
def unitOut (m : MathFns) (xs ws : List ℚ) (n wIdx : Nat) : Option (ℚ × Nat) :=
  match weightedSum xs ws n 0 wIdx 0 with
  | some (sum, w) =>
    match ws[w]? with
    | some bias => some (m.tanh (sum + bias), w + 1)
    | none => none
  | none => none

/-- One dense layer of `predict`: `units` units left, each over `n` inputs;
`acc` collects the activations pushed so far. -/
def layer (m : MathFns) (xs ws : List ℚ) (n : Nat) : Nat → Nat → List ℚ → Option (List ℚ × Nat)
  | 0, wIdx, acc => some (acc, wIdx)
  | units + 1, wIdx, acc =>
    match unitOut m xs ws n wIdx with
    | some (a, w) => layer m xs ws n units w (acc ++ [a])
    | none => none

/-- `predict(inputs)`: returns the output array and the brain with its
`last*` fields recorded. -/
def Brain.predict (m : MathFns) (b : Brain) (inputs : List ℚ) : Option (List ℚ × Brain) :=
  match layer m inputs b.weights b.i b.h 0 [] with
  | some (hid, w) =>
    match layer m hid b.weights b.h b.o w [] with
    | some (out, _) =>
      some (out, { b with lastInputs := some inputs, lastHidden := some hid,
                          lastOutput := some out })
    | none => none
  | none => none

/-! ## Car -/

/-- The class `Car`.  The fields `width = 20`, `length = 40` and
`maxSpeed = 12.0` are set by the constructor and never assigned again; they
are the constants `Car.width`, `Car.length`, `Car.maxSpeed` below. -/
structure Car where
  pos : Point
  vel : Point
  angle : ℚ
  steer : ℚ
  throttle : ℚ
  alive : Bool
  age : ℚ
  brain : Brain
  generation : Nat
  distance : ℚ
  checkpointIndex : Nat
  fitness : ℚ
  sensors : List ℚ
deriving DecidableEq

/-- `this.width = 20`. -/
def Car.width : ℚ := 20
/-- `this.length = 40`. -/
def Car.length : ℚ := 40
/-- `this.maxSpeed = 12.0`. -/
def Car.maxSpeed : ℚ := 12

/-- `new Car(brain, generation)` with a brain given. -/
def Car.new (track : Track) (brain : Brain) (generation : Nat := 0) : Car :=
  { pos := { x := track.start.x, y := track.start.y },
    vel := { x := 0, y := 0 },
    angle := track.start.angle,
    steer := 0, throttle := 0,
    alive := true, age := 0,
    brain := brain, generation := generation,
    distance := 0, checkpointIndex := 0, fitness := 0, sensors := [] }

/-- `reset()`. -/
def Car.reset (m : MathFns) (track : Track) (c : Car) : Car :=
  { c with
    pos := { x := track.start.x, y := track.start.y },
    vel := { x := m.cos track.start.angle * 2, y := m.sin track.start.angle * 2 },
    angle := track.start.angle,
    alive := true, age := 0, distance := 0, checkpointIndex := 0, fitness := 0 }

/-! ## `Car.step` -/

/-- The test-and-update `if(hit && hit.offset < minD) minD = hit.offset`. -/
def updateMin (hit : Option Hit) (minD : ℚ) : ℚ :=
  match hit with
  | some h => if h.offset < minD then h.offset else minD
  | none => minD

/-- The loop of `checkPoly`, `for(j=0; j<poly.length-1; j++)`, over the
consecutive pairs `poly[j]`, `poly[j+1]`. -/
def scanEdges (m : MathFns) (A B : Point) : List Point → ℚ → ℚ
  | p :: q :: rest, minD =>
    scanEdges m A B (q :: rest) (updateMin (getIntersection m A B p q) minD)
  | _, minD => minD

/-- The helper `checkPoly(poly)` of one ray from `A` to `B`: the loop, then the
closing edge from `poly[poly.length-1]` to `poly[0]`.  On an empty array both
are `undefined` and `getIntersection` throws (`none`). -/
def checkPoly (m : MathFns) (A B : Point) (poly : List Point) (minD : ℚ) : Option ℚ :=
  match poly.getLast?, poly.head? with
  | some last, some first =>
    some (updateMin (getIntersection m A B last first) (scanEdges m A B poly minD))
  | _, _ => none

/-- `const rays = 9`. -/
def rays : Nat := 9

/-- `const maxDist = 180`. -/
def maxDist : ℚ := 180

/-- The angle of ray `i`: `this.angle + lerp(-Math.PI/1.5, Math.PI/1.5, i/(rays-1))`,
each operation rounded. -/
def rayAngle (m : MathFns) (angle : ℚ) (i : Nat) : ℚ :=
  m.fl (angle + lerpR m (m.fl (-Math_PI / (3 / 2))) (m.fl (Math_PI / (3 / 2)))
                  (m.fl ((i : ℚ) / (((rays - 1 : Nat) : ℚ)))))

/-- The far end of ray `i`: `{x: pos.x + Math.cos(angle)*maxDist, y: pos.y + Math.sin(angle)*maxDist}`,
each operation rounded. -/
def rayEnd (m : MathFns) (pos : Point) (angle : ℚ) (i : Nat) : Point :=
  { x := m.fl (pos.x + m.fl (m.cos (rayAngle m angle i) * maxDist)),
    y := m.fl (pos.y + m.fl (m.sin (rayAngle m angle i) * maxDist)) }

/-- One iteration of the sensor loop: the reading of ray `i`. -/
def castRay (m : MathFns) (track : Track) (pos : Point) (angle : ℚ) (i : Nat) : Option ℚ :=
  match checkPoly m pos (rayEnd m pos angle i) track.innerWall 1 with
  | some d => checkPoly m pos (rayEnd m pos angle i) track.outerWall d
  | none => none

/-- The sensor loop `for(let i=0;i<rays;i++){ ... this.sensors.push(minD) }`:
`n` iterations left, `acc` the readings pushed so far. -/
def castRays (m : MathFns) (track : Track) (pos : Point) (angle : ℚ) :
    Nat → Nat → List ℚ → Outcome (List ℚ)
  | 0, _, acc => .returned acc
  | n + 1, i, acc =>
    match castRay m track pos angle i with
    | some d => castRays m track pos angle n (i + 1) (acc ++ [d])
    | none => .stopped .typeError acc

/-- Lines 163-167 of `step`: `this.age += dt` and the kill of a slow car. -/
def ageTick (m : MathFns) (dt : ℚ) (c : Car) : Car :=
  let c1 := { c with age := c.age + dt }
  let currentSpeed := m.hypot c1.vel.x c1.vel.y
  if c1.age > 20 ∧ currentSpeed < 3 / 2 then { c1 with alive := false } else c1

/-- Line 204 of `step`: `if(this.sensors.some(s => s < 0.05)) this.alive = false`. -/
def collisionCheck (c : Car) : Car :=
  if c.sensors.any (fun s => decide (s < 1 / 20)) then { c with alive := false } else c

/-- Lines 210-229 of `step`: controls from the outputs `o0 = out[0]`,
`o1 = out[1]`, turning, acceleration, friction and the position update. -/
def drive (m : MathFns) (o0 o1 : ℚ) (c : Car) : Car :=
  let steer := clamp (o0 * 2 - 1) (-1) 1
  let throttle := clamp o1 (1 / 5) 1
  let speed := m.hypot c.vel.x c.vel.y
  let angle := c.angle + steer * (1 / 10) * (speed / Car.maxSpeed)
  let forceX := m.cos angle * throttle * (1 / 2)
  let forceY := m.sin angle * throttle * (1 / 2)
  let velX := (c.vel.x + forceX) * (19 / 20)
  let velY := (c.vel.y + forceY) * (19 / 20)
  { c with steer := steer, throttle := throttle, angle := angle,
           vel := { x := velX, y := velY },
           pos := { x := c.pos.x + velX, y := c.pos.y + velY } }

/-- Lines 238-241 of `step`: a captured checkpoint resets the age. -/
def capture (distToNext : ℚ) (c : Car) : Car :=
  if distToNext < 40 then { c with checkpointIndex := c.checkpointIndex + 1, age := 0 } else c

/-- Lines 234-247 of `step`: checkpoint capture, fitness and the timeout.
With no checkpoint `nextCp` is `undefined` and `nextCp.x` throws. -/
def score (m : MathFns) (track : Track) (c : Car) : Outcome Car :=
  let nextCpIdx := (c.checkpointIndex + 1) % track.checkpoints.length
  match track.checkpoints[nextCpIdx]? with
  | none => .stopped .typeError c
  | some nextCp =>
    let distToNext := m.hypot (nextCp.x - c.pos.x) (nextCp.y - c.pos.y)
    let c1 := capture distToNext c
    let c2 := { c1 with fitness := (c1.checkpointIndex : ℚ) + (1 - distToNext / 200) }
    .returned (if c2.age > 100 then { c2 with alive := false } else c2)

/-- Lines 206-247 of `step`, run on the car as the collision check leaves it:
the inputs `[...this.sensors, this.throttle, this.steer]`, `predict`, the
controls and physics, then checkpoints, fitness and timeout.  When `predict`
reads outside an array, or `out[0]` or `out[1]` is `undefined`, the controls
become `NaN` and the model stops with `JsError.nanValue`. -/
def control (m : MathFns) (track : Track) (c : Car) : Outcome Car :=
  let inputs := c.sensors ++ [c.throttle, c.steer]
  match c.brain.predict m inputs with
  | none => .stopped .nanValue c
  | some (out, brain) =>
    match out[0]?, out[1]? with
    | some o0, some o1 => score m track (drive m o0 o1 { c with brain := brain })
    | _, _ => .stopped .nanValue { c with brain := brain }

/-- `step(dt)`. -/
def Car.step (m : MathFns) (track : Track) (dt : ℚ) (c : Car) : Outcome Car :=
  if c.alive = false then .returned c
  else
    let c1 := ageTick m dt c
    match castRays m track c1.pos c1.angle rays 0 [] with
    | .stopped e acc => .stopped e { c1 with sensors := acc }
    | .returned readings => control m track (collisionCheck { c1 with sensors := readings })

/-! ## Population, `init` and `evolve` -/

/-- The globals of the simulation: `population`, `generation`, `bestCar`,
`populationSize`, and the cursor into the random stream. -/
structure Sim where
  population : List Car
  generation : Nat
  bestCar : Option Car
  populationSize : Nat
  cursor : Nat

/-- The loop of `init`, `for(i=0; i<populationSize; i++) population.push(new Car(null, 0))`:
`n` iterations left; each `new Car(null, 0)` calls `new Brain()`. -/
def initLoop (track : Track) (rng : Rng) : Nat → List Car → Nat → List Car × Nat
  | 0, pop, k => (pop, k)
  | n + 1, pop, k =>
    let b := Brain.fresh rng k
    initLoop track rng n (pop ++ [Car.new track b.1 0]) b.2

/-- `init()`. -/
def init (track : Track) (rng : Rng) (s : Sim) : Sim :=
  let r := initLoop track rng s.populationSize [] s.cursor
  { s with population := r.1, generation := 0, cursor := r.2 }

/-- The comparator of `population.sort((a,b) => b.fitness - a.fitness)`:
`a` may stay before `b` when its fitness is not smaller. -/
def fitnessGE (a b : Car) : Prop := b.fitness ≤ a.fitness

instance : DecidableRel fitnessGE := fun a b => inferInstanceAs (Decidable (b.fitness ≤ a.fitness))

instance : IsTotal Car fitnessGE := ⟨fun a b => le_total b.fitness a.fitness⟩

instance : IsTrans Car fitnessGE := ⟨fun _ _ _ hab hbc => le_trans hbc hab⟩

/-- `population.sort((a,b) => b.fitness - a.fitness)`: `Array.prototype.sort`
is stable, and a stable sort has one result, the one of insertion sort. -/
def sortByFitness (pop : List Car) : List Car := pop.insertionSort fitnessGE

/-- The parent index `Math.floor(Math.random()*population.length/2)` for the draw `r`. -/
def parentIdx (r : ℚ) (n : Nat) : Nat := floorIdx (r * (n : ℚ) / 2)

/-- The loop `while(newPop.length < populationSize){ ... }` of `evolve` over the
sorted `population`.  `fuel` bounds the number of iterations (each one adds a
car, so `populationSize` suffices).  `none` when a parent is `undefined`. -/
def breed (track : Track) (rng : Rng) (rate : ℚ) (population : List Car)
    (populationSize generation : Nat) : Nat → List Car → Nat → Option (List Car) × Nat
  | 0, newPop, k => (some newPop, k)
  | fuel + 1, newPop, k =>
    if newPop.length < populationSize then
      match population[parentIdx (rng k) population.length]?,
            population[parentIdx (rng (k + 1)) population.length]? with
      | some p1, some p2 =>
        let crossed := crossover (rng (k + 2)) p1.brain.getGenes p2.brain.getGenes
        let childGenes := mutate rng rate crossed (k + 3)
        let childBrain := Brain.fresh rng childGenes.2
        breed track rng rate population populationSize generation fuel
          (newPop ++ [Car.new track (childBrain.1.setGenes childGenes.1) (generation + 1)])
          childBrain.2
      | _, _ => (none, k + 2)
    else (some newPop, k)

/-- `evolve()`; `rate` is `Number(mutRateEl.value)`. -/
def evolve (m : MathFns) (track : Track) (rng : Rng) (rate : ℚ) (s : Sim) : Outcome Sim :=
  let sorted := sortByFitness s.population
  let s1 := { s with population := sorted, bestCar := sorted[0]? }
  match sorted[0]?, sorted[1]? with
  | some e0, some e1 =>
    let newPop := [Car.new track e0.brain.clone s.generation,
                   Car.new track e1.brain.clone s.generation]
    match breed track rng rate sorted s.populationSize s.generation s.populationSize
            newPop s.cursor with
    | (some pop, k) =>
      .returned { s1 with population := pop.map (Car.reset m track),
                          generation := s.generation + 1, cursor := k }
    | (none, k) => .stopped .typeError { s1 with cursor := k }
  | _, _ => .stopped .typeError s1

/-- The state an outcome carries, returned or not. -/
def Outcome.state {σ : Type} : Outcome σ → σ
  | .returned s => s
  | .stopped _ s => s

/-- The genome length of a network with the shape of `b`:
`(this.i+1)*this.h + (this.h+1)*this.o`. -/
def Brain.genomeLength (b : Brain) : Nat := (b.i + 1) * b.h + (b.h + 1) * b.o

/-- The car `c` is a child bred by `evolve` from two cars of `population`:
crossover of the parents' genes, mutation, a new default `Brain` given these
genes, and a new `Car` of the next generation. -/
def IsChildOf (track : Track) (rng : Rng) (rate : ℚ) (population : List Car)
    (generation : Nat) (c : Car) : Prop :=
  ∃ p1 p2 r k1 k2, p1 ∈ population ∧ p2 ∈ population ∧
    c = Car.new track
      ((Brain.fresh rng k2).1.setGenes
        (mutate rng rate (crossover r p1.brain.getGenes p2.brain.getGenes) k1).1)
      (generation + 1)

/-! ## `buildTrack` -/

/-- The control points `points` of `buildTrack` as shipped. -/
def trackPoints : List Point :=
  [⟨150, 360⟩, ⟨350, 150⟩, ⟨700, 150⟩, ⟨850, 250⟩, ⟨1000, 150⟩, ⟨1100, 360⟩, ⟨900, 570⟩,
   ⟨350, 570⟩]

/-- `function spline(p0, p1, p2, p3, t)`: Catmull-Rom interpolation. -/
def spline (p0 p1 p2 p3 : Point) (t : ℚ) : Point :=
  let tt := t * t
  let ttt := tt * t
  { x := (1 / 2) * ((2 * p1.x) + (-p0.x + p2.x) * t
          + (2 * p0.x - 5 * p1.x + 4 * p2.x - p3.x) * tt
          + (-p0.x + 3 * p1.x - 3 * p2.x + p3.x) * ttt),
    y := (1 / 2) * ((2 * p1.y) + (-p0.y + p2.y) * t
          + (2 * p0.y - 5 * p1.y + 4 * p2.y - p3.y) * tt
          + (-p0.y + 3 * p1.y - 3 * p2.y + p3.y) * ttt) }

/-- `const steps = 50`. -/
def steps : Nat := 50

/-- The inner loop `for(let j=0; j<steps; j++)` of the path generation:
`n` iterations left, `acc` is `track.centerLine` so far. -/
def segmentLoop (p0 p1 p2 p3 : Point) : Nat → Nat → List Point → List Point
  | 0, _, acc => acc
  | n + 1, j, acc =>
    segmentLoop p0 p1 p2 p3 n (j + 1) (acc ++ [spline p0 p1 p2 p3 ((j : ℚ) / (steps : ℚ))])

/-- The outer loop `for(let i=0; i<points.length; i++)` of the path generation:
`n` iterations left.  The four indices are in range for `i < points.length`;
`none` stands for the `TypeError` of an `undefined` control point. -/
def centerLoop (points : List Point) : Nat → Nat → List Point → Option (List Point)
  | 0, _, acc => some acc
  | n + 1, i, acc =>
    match points[(i + points.length - 1) % points.length]?, points[i]?,
          points[(i + 1) % points.length]?, points[(i + 2) % points.length]? with
    | some p0, some p1, some p2, some p3 =>
      centerLoop points n (i + 1) (segmentLoop p0 p1 p2 p3 steps 0 acc)
    | _, _, _, _ => none

/-- `const w = 45` of the wall generation. -/
def wallOffset : ℚ := 45

/-- The loop `for(let i=0; i<track.centerLine.length; i++)` of the wall
generation: `n` iterations left.  An edge of length `len = 0` makes the normal
`NaN` or infinite, and the model stops there. -/
def wallLoop (m : MathFns) : Nat → Nat → Track → Outcome Track
  | 0, _, t => .returned t
  | n + 1, i, t =>
    match t.centerLine[i]?, t.centerLine[(i + 1) % t.centerLine.length]? with
    | some p1, some p2 =>
      let dx := p2.x - p1.x
      let dy := p2.y - p1.y
      let len := m.hypot dx dy
      if len = 0 then .stopped .nanValue t
      else
        let nx := -dy / len
        let ny := dx / len
        wallLoop m n (i + 1)
          { t with
            innerWall := t.innerWall ++ [⟨p1.x + nx * wallOffset, p1.y + ny * wallOffset⟩],
            outerWall := t.outerWall ++ [⟨p1.x - nx * wallOffset, p1.y - ny * wallOffset⟩],
            checkpoints := if i % 30 = 0 then t.checkpoints ++ [p1] else t.checkpoints }
    | _, _ => .stopped .typeError t

/-- The object literal `track` before `buildTrack` runs. -/
def emptyTrack : Track where
  centerLine := []
  innerWall := []
  outerWall := []
  checkpoints := []
  start := ⟨100, 100, 0⟩
  width := 50

/-- `buildTrack()`, with the control points as a parameter (the program calls
it once, on `trackPoints`). -/
def buildTrack (m : MathFns) (points : List Point) : Outcome Track :=
  match centerLoop points points.length 0 [] with
  | none => .stopped .typeError emptyTrack
  | some cl =>
    match wallLoop m cl.length 0 { emptyTrack with centerLine := cl } with
    | .stopped e t => .stopped e t
    | .returned t =>
      match t.centerLine[0]?, t.centerLine[1]? with
      | some c0, some c1 =>
        .returned { t with start := ⟨c0.x, c0.y, m.atan2 (c1.y - c0.y) (c1.x - c0.x)⟩ }
      | _, _ => .stopped .typeError t

/-- The origin, the default of the total list reads below. -/
def origin : Point := ⟨0, 0⟩

/-- The `dx` of the edge from `cl[i]` to `cl[(i+1) % cl.length]`. -/
def edgeDx (cl : List Point) (i : Nat) : ℚ :=
  (cl.getD ((i + 1) % cl.length) origin).x - (cl.getD i origin).x

/-- The `dy` of the edge from `cl[i]` to `cl[(i+1) % cl.length]`. -/
def edgeDy (cl : List Point) (i : Nat) : ℚ :=
  (cl.getD ((i + 1) % cl.length) origin).y - (cl.getD i origin).y

/-- The length `hypot(dx, dy)` of the edge from `cl[i]` to `cl[(i+1) % cl.length]`. -/
def edgeLen (m : MathFns) (cl : List Point) (i : Nat) : ℚ :=
  m.hypot (edgeDx cl i) (edgeDy cl i)

/-- No edge of the closed polyline `cl` has length zero. -/
def NoZeroEdge (m : MathFns) (cl : List Point) : Prop :=
  ∀ i, i < cl.length → edgeLen m cl i ≠ 0

/-- The wall point of the specification: the centerline point `cl[i]` moved by
`sign * 45` along the normal `n_i = (-dy, dx)/hypot(dx, dy)` of the edge from
`cl[i]` to `cl[(i+1) % cl.length]`. -/
def offsetPoint (m : MathFns) (cl : List Point) (i : Nat) (sign : ℚ) : Point :=
  ⟨(cl.getD i origin).x + sign * (45 * (-edgeDy cl i / edgeLen m cl i)),
   (cl.getD i origin).y + sign * (45 * (edgeDx cl i / edgeLen m cl i))⟩

/-! ## Concrete inputs for the examples -/

/-- Rational stand-ins for the `Math` functions, exact at the arguments the
examples use: `cos 0 = 1`, `sin 0 = 0`, `tanh 0 = 0`, `hypot x 0 = |x|`; no rounding. -/
def demoMath : MathFns where
  cos := fun x => 1 - x ^ 2 / 2 + x ^ 4 / 24
  sin := fun x => x - x ^ 3 / 6
  tanh := fun x => x / (1 + |x|)
  hypot := fun x y => Max.max |x| |y|
  atan2 := fun y x => if x = 0 then 0 else y / x
  fl := fun q => q

/-- The stand-ins of `demoMath` with the rounding of IEEE doubles.  At the
arguments the examples use (`cos 0 = 1`, `sin 0 = 0`) the stand-ins return
doubles. -/
def doubleMath : MathFns := { demoMath with fl := fl64 }

/-- A square track: walls of side 200 and 600 around the point (300, 300),
four checkpoints, start on the left side heading along the x axis. -/
def demoTrack : Track where
  centerLine := [⟨100, 100⟩, ⟨500, 100⟩, ⟨500, 500⟩, ⟨100, 500⟩]
  innerWall := [⟨200, 200⟩, ⟨400, 200⟩, ⟨400, 400⟩, ⟨200, 400⟩]
  outerWall := [⟨0, 0⟩, ⟨600, 0⟩, ⟨600, 600⟩, ⟨0, 600⟩]
  checkpoints := [⟨100, 100⟩, ⟨500, 100⟩, ⟨500, 500⟩, ⟨100, 500⟩]
  start := ⟨100, 100, 0⟩
  width := 50

/-- A random stream whose every draw is one half. -/
def demoRng : Rng := fun _ => 1 / 2

/-- A brain of the default shape with every weight equal to `w`. -/
def demoBrain (w : ℚ) : Brain := Brain.ofWeights 11 12 2 (List.replicate 170 w)

/-- A finished car with the brain `demoBrain w` and the fitness `fit`. -/
def demoCar (w fit : ℚ) : Car :=
  { Car.new demoTrack (demoBrain w) 0 with fitness := fit, alive := false }

/-- A finished population of three cars, configured size three. -/
def demoSim : Sim where
  population := [demoCar 1 (3 / 2), demoCar 2 (5 / 2), demoCar 3 2]
  generation := 0
  bestCar := none
  populationSize := 3
  cursor := 0

/-- Whether the function returned. -/
def Outcome.isReturned {σ : Type} : Outcome σ → Bool
  | .returned _ => true
  | .stopped _ _ => false

/-- A car as the constructor leaves it, at the start of `demoTrack`. -/
def demoLiveCar : Car := Car.new demoTrack (demoBrain 0) 0

/-! ## Geometry used to state the sensor claims -/

/-- The point `P` lies on the segment from `A` to `B`: `P = A + t*(B - A)`
for a parameter `t` in `[0, 1]`. -/
def OnSegment (P A B : Point) : Prop :=
  ∃ t : ℚ, 0 ≤ t ∧ t ≤ 1 ∧ P.x = A.x + t * (B.x - A.x) ∧ P.y = A.y + t * (B.y - A.y)

/-- The segments `AB` and `CD` have a common point. -/
def SegmentsMeet (A B C D : Point) : Prop :=
  ∃ P : Point, OnSegment P A B ∧ OnSegment P C D

/-- The edges of the closed loop through `poly`: the consecutive pairs
`(poly[j], poly[j+1])` and the wrap-around edge `(poly[last], poly[0])`. -/
def loopEdges (poly : List Point) : List (Point × Point) :=
  poly.zip poly.tail ++
    (match poly.getLast?, poly.head? with
     | some last, some first => [(last, first)]
     | _, _ => [])

/-- The wall edges of a track: the closed loops of `innerWall` and `outerWall`. -/
def wallEdges (track : Track) : List (Point × Point) :=
  loopEdges track.innerWall ++ loopEdges track.outerWall

/-- The segment `CD` is not parallel to `AB` and meets it at a point
`A + t*(B - A)` with `0 ≤ t < 1`, that is, before the far end `B`. -/
def CrossesBefore (A B C D : Point) : Prop :=
  bottom A B C D ≠ 0 ∧
  ∃ t u : ℚ, 0 ≤ t ∧ t < 1 ∧ 0 ≤ u ∧ u ≤ 1 ∧
    A.x + t * (B.x - A.x) = C.x + u * (D.x - C.x) ∧
    A.y + t * (B.y - A.y) = C.y + u * (D.y - C.y)

/-- The edge `CD` passes the test of `getIntersection` on the ray `AB` with an
offset below 1: the computed `bottom` is not 0 and the computed parameters
satisfy `0 ≤ t < 1` and `0 ≤ u ≤ 1`. -/
def HitsBefore (m : MathFns) (A B C D : Point) : Prop :=
  bottomR m A B C D ≠ 0 ∧
  0 ≤ tParam m A B C D ∧ tParam m A B C D < 1 ∧
  0 ≤ uParam m A B C D ∧ uParam m A B C D ≤ 1

/-- The double written `2.6, 0.6`: one end of a segment. -/
def missA : Point := ⟨fl64 (13 / 5), fl64 (3 / 5)⟩

/-- The double written `0.1, 2.1`: the other end of that segment, and an end
of the segment from `missC`. -/
def missB : Point := ⟨fl64 (1 / 10), fl64 (21 / 10)⟩

/-- The point `0.5, 1.0`. -/
def missC : Point := ⟨1 / 2, 1⟩

/-- Four control points on the x axis: every edge of the interpolated
centerline is horizontal, so `hypot(dx, 0) = |dx|` is its exact length. -/
def flatPoints : List Point := [⟨0, 0⟩, ⟨100, 0⟩, ⟨200, 0⟩, ⟨100, 0⟩]

/-- The doubles written `1.0, 1.8`. -/
def ghostA : Point := ⟨1, fl64 (9 / 5)⟩

/-- The doubles written `2.3, 0.1`. -/
def ghostB : Point := ⟨fl64 (23 / 10), fl64 (1 / 10)⟩

/-- The doubles written `1.6, 1.4`. -/
def ghostC : Point := ⟨fl64 (8 / 5), fl64 (7 / 5)⟩

/-- The doubles written `0.4, 2.2`. -/
def ghostD : Point := ⟨fl64 (2 / 5), fl64 (11 / 5)⟩

/-- A track whose inner wall has a corner at the double `0.044502`, just below
the height `0.04450200000000001` of the start; no wall edge is horizontal. -/
def grazeTrack : Track where
  centerLine := [⟨0, 0⟩, ⟨0, 300⟩, ⟨500, 300⟩, ⟨500, -300⟩, ⟨0, -300⟩]
  innerWall := [⟨50, 0⟩, ⟨50, fl64 (44502 / 1000000)⟩, ⟨40, -5⟩]
  outerWall := [⟨-1000, -900⟩, ⟨1000, -1000⟩, ⟨0, 2000⟩]
  checkpoints := [⟨0, 0⟩, ⟨0, 300⟩, ⟨500, 300⟩, ⟨500, -300⟩, ⟨0, -300⟩]
  start := ⟨0, fl64 (4450200000000001 / 100000000000000000), 0⟩
  width := 50

/-- A new car at the start of `grazeTrack`: position (0, 0.04450200000000001),
heading 0. -/
def grazeCar : Car := Car.new grazeTrack (demoBrain 0) 0

/-- A ring track around a square island whose left side is 180 units to the
right of the start. -/
def touchTrack : Track where
  centerLine := [⟨0, 0⟩, ⟨0, 300⟩, ⟨500, 300⟩, ⟨500, -300⟩, ⟨0, -300⟩]
  innerWall := [⟨180, -10⟩, ⟨180, 10⟩, ⟨300, 10⟩, ⟨300, -10⟩]
  outerWall := [⟨-500, -500⟩, ⟨700, -500⟩, ⟨700, 500⟩, ⟨-500, 500⟩]
  checkpoints := [⟨0, 0⟩, ⟨0, 300⟩, ⟨500, 300⟩, ⟨500, -300⟩, ⟨0, -300⟩]
  start := ⟨0, 0, 0⟩
  width := 50

/-- A new car at the start of `touchTrack`: position (0, 0), heading 0. -/
def touchCar : Car := Car.new touchTrack (demoBrain 0) 0

/-! ## Reachable simulation states -/

/-- The simulation states the program can reach: `init()` from any earlier
state (the page load, the reset button and the population-size field all call
it), `step` of a car of the population with any `dt`, and `evolve()` with any
mutation rate.  A call that stops leaves the state as mutated so far. -/
inductive Reachable (m : MathFns) (track : Track) (rng : Rng) : Sim → Prop where
  | init (s : Sim) : Reachable m track rng (init track rng s)
  | step (s : Sim) (dt : ℚ) (i : Nat) (c : Car) :
      Reachable m track rng s → s.population[i]? = some c →
      Reachable m track rng
        { s with population := s.population.set i (Car.step m track dt c).state }
  | evolve (s : Sim) (rate : ℚ) :
      Reachable m track rng s → Reachable m track rng (evolve m track rng rate s).state

/-- The brain has the default shape 11-12-2 and 170 weights. -/
def Brain.Standard (b : Brain) : Prop :=
  b.i = 11 ∧ b.h = 12 ∧ b.o = 2 ∧ b.weights.length = 170

/-- The brain `b2` has the shape and the weights of `b`. -/
def Brain.SameGenome (b b2 : Brain) : Prop :=
  b2.i = b.i ∧ b2.h = b.h ∧ b2.o = b.o ∧ b2.weights = b.weights

/-! ## Further definitions used to state the claims -/

/-- The error with which the model stopped, if it did. -/
def Outcome.error? {σ : Type} : Outcome σ → Option JsError
  | .returned _ => none
  | .stopped e _ => some e

/-- A finished population of one car, configured size three. -/
def oneCarSim : Sim where
  population := [demoCar 1 (3 / 2)]
  generation := 4
  bestCar := none
  populationSize := 3
  cursor := 0

/-! ## The dense network in closed form, and the weight reads of `predict` -/

/-- A dense unit as the specification words it: the `tanh` of the weighted sum
of the first `n` inputs `xs` with the weights `ws[off], ..., ws[off+n-1]`, plus
the bias `ws[off+n]`. -/
def denseUnit (m : MathFns) (xs ws : List ℚ) (n off : Nat) : ℚ :=
  m.tanh (Finset.sum (Finset.range n) (fun i => xs.getD i 0 * ws.getD (off + i) 0)
            + ws.getD (off + n) 0)

/-- The indices read by the inner loop of `predict`, one `this.weights[wIdx++]`
per iteration: `n` iterations left, `wIdx` the current index.  Returns the
indices in reading order and the index left in `wIdx`. -/
def sumReads : Nat → Nat → List Nat × Nat
  | 0, wIdx => ([], wIdx)
  | n + 1, wIdx =>
    let r := sumReads n (wIdx + 1)
    (wIdx :: r.1, r.2)

/-- The indices read for one unit: the inner loop, then the bias
`this.weights[wIdx++]`. -/
def unitReads (n wIdx : Nat) : List Nat × Nat :=
  let r := sumReads n wIdx
  (r.1 ++ [r.2], r.2 + 1)

/-- The indices read for one layer of `units` units over `n` inputs. -/
def layerReads (n : Nat) : Nat → Nat → List Nat × Nat
  | 0, wIdx => ([], wIdx)
  | units + 1, wIdx =>
    let a := unitReads n wIdx
    let r := layerReads n units a.2
    (a.1 ++ r.1, r.2)

/-- The indices at which `predict` reads `this.weights`, in reading order: the
hidden layer from `wIdx = 0`, then the output layer from where it stopped. -/
def Brain.weightReads (b : Brain) : List Nat :=
  let a := layerReads b.i b.h 0
  let r := layerReads b.h b.o a.2
  a.1 ++ r.1

/-! ## Assumptions on the `Math` functions used for the speed bound -/

/-- Properties of `Math.hypot`, `Math.cos` and `Math.sin` that hold of the real
functions: `hypot` is non-negative, satisfies the triangle inequality and is
homogeneous for non-negative factors, and `(cos a, sin a)` has length at most 1. -/
def MathFns.NormLike (m : MathFns) : Prop :=
  (∀ x y, 0 ≤ m.hypot x y) ∧
  (∀ x y x2 y2, m.hypot (x + x2) (y + y2) ≤ m.hypot x y + m.hypot x2 y2) ∧
  (∀ s x y, 0 ≤ s → m.hypot (s * x) (s * y) = s * m.hypot x y) ∧
  (∀ a, m.hypot (m.cos a) (m.sin a) ≤ 1)

/-- Rational stand-ins for the `Math` functions with `cos² + sin² = 1` exactly
(the rational parametrisation of the unit circle) and the maximum norm for
`hypot`; `cos 0 = 1`, `sin 0 = 0`, `tanh 0 = 0`, `hypot x 0 = |x|`. -/
def circleMath : MathFns where
  cos := fun x => (1 - x ^ 2) / (1 + x ^ 2)
  sin := fun x => 2 * x / (1 + x ^ 2)
  tanh := fun x => x / (1 + |x|)
  hypot := fun x y => Max.max |x| |y|
  atan2 := fun y x => if x = 0 then 0 else y / x
  fl := fun q => q

/-! ## Theorems -/

/-- C1: for genomes `a`, `b` of equal length `L ≥ 1` and a cut index
`pt < L`, the child built by `crossover` has length `L`, agrees with `a` at
every index below `pt` and agrees with `b` at every index from `pt` to `L-1`. -/
theorem crossover_single_point (a b : List ℚ) (pt : Nat)
    (hlen : a.length = b.length) (_hL : 1 ≤ a.length) (hpt : pt < a.length) :
    (crossoverAt pt a b).length = a.length ∧
    (∀ i, i < pt → (crossoverAt pt a b)[i]? = a[i]?) ∧
    (∀ i, pt ≤ i → i < a.length → (crossoverAt pt a b)[i]? = b[i]?) := by
  have htake : (a.take pt).length = pt := by
    rw [List.length_take]; omega
  refine ⟨?_, ?_, ?_⟩
  · simp only [crossoverAt, List.length_append, List.length_take, List.length_drop]
    omega
  · intro i hi
    unfold crossoverAt
    rw [List.getElem?_append_left (by omega), List.getElem?_take_of_lt hi]
  · intro i hi _
    unfold crossoverAt
    rw [List.getElem?_append_right (by omega), htake, List.getElem?_drop]
    congr 1
    omega

/-- C1 witness: genomes of length 3 cut at index 1. -/
theorem crossover_single_point_witness :
    (crossoverAt 1 [1, 2, 3] [4, 5, 6]).length = [(1 : ℚ), 2, 3].length ∧
    (∀ i, i < 1 → (crossoverAt 1 [1, 2, 3] [4, 5, 6])[i]? = [(1 : ℚ), 2, 3][i]?) ∧
    (∀ i, 1 ≤ i → i < [(1 : ℚ), 2, 3].length →
      (crossoverAt 1 [1, 2, 3] [4, 5, 6])[i]? = [(4 : ℚ), 5, 6][i]?) :=
  crossover_single_point [1, 2, 3] [4, 5, 6] 1 (by decide) (by decide) (by decide)

/-! ### Auxiliary facts about the genetic operators -/

theorem crossoverAt_length (pt : Nat) (a b : List ℚ) (hlen : a.length = b.length) :
    (crossoverAt pt a b).length = a.length := by
  simp only [crossoverAt, List.length_append, List.length_take, List.length_drop]
  omega

theorem mutate_length (rng : Rng) (rate : ℚ) (genes : List ℚ) :
    ∀ k, (mutate rng rate genes k).1.length = genes.length := by
  induction genes with
  | nil => intro k; simp [mutate]
  | cons g gs ih =>
    intro k
    unfold mutate
    split <;> simp [ih]

theorem drawWeights_length (rng : Rng) :
    ∀ n acc k, (drawWeights rng n acc k).1.length = acc.length + n := by
  intro n
  induction n with
  | zero => intro acc k; simp [drawWeights]
  | succ n ih =>
    intro acc k
    rw [drawWeights, ih]
    simp only [List.length_append, List.length_singleton]
    omega

theorem parentIdx_lt (r : ℚ) (n : Nat) (h0 : 0 ≤ r) (h1 : r < 1) (hn : 0 < n) :
    parentIdx r n < n := by
  unfold parentIdx floorIdx
  have hq : (0 : ℚ) < (n : ℚ) := by exact_mod_cast hn
  have hnn : 0 ≤ r * (n : ℚ) / 2 := by positivity
  rw [Nat.floor_lt hnn]
  nlinarith

theorem breed_returns (track : Track) (rng : Rng) (rate : ℚ) (population : List Car)
    (populationSize generation : Nat) (hv : rng.Valid) (hn : 0 < population.length) :
    ∀ fuel newPop k, ∃ children k2,
      breed track rng rate population populationSize generation fuel newPop k
        = (some (newPop ++ children), k2) ∧
      (∀ c ∈ children, IsChildOf track rng rate population generation c) ∧
      (populationSize ≤ newPop.length + fuel → newPop.length ≤ populationSize →
        (newPop ++ children).length = populationSize) := by
  intro fuel
  induction fuel with
  | zero =>
    intro newPop k
    refine ⟨[], k, by simp [breed], by simp, ?_⟩
    intro h1 h2
    simp only [List.append_nil]
    omega
  | succ fuel ih =>
    intro newPop k
    by_cases hlt : newPop.length < populationSize
    · have h1 := parentIdx_lt (rng k) population.length (hv k).1 (hv k).2 hn
      have h2 := parentIdx_lt (rng (k + 1)) population.length (hv (k + 1)).1 (hv (k + 1)).2 hn
      obtain ⟨p1, hp1⟩ : ∃ p1, population[parentIdx (rng k) population.length]? = some p1 :=
        ⟨_, List.getElem?_eq_getElem h1⟩
      obtain ⟨p2, hp2⟩ : ∃ p2, population[parentIdx (rng (k + 1)) population.length]? = some p2 :=
        ⟨_, List.getElem?_eq_getElem h2⟩
      have hm1 : p1 ∈ population := List.mem_iff_getElem?.2 ⟨_, hp1⟩
      have hm2 : p2 ∈ population := List.mem_iff_getElem?.2 ⟨_, hp2⟩
      obtain ⟨child, hchild⟩ : ∃ child, child = Car.new track
          ((Brain.fresh rng (mutate rng rate (crossover (rng (k + 2))
              p1.brain.getGenes p2.brain.getGenes) (k + 3)).2).1.setGenes
            (mutate rng rate (crossover (rng (k + 2))
              p1.brain.getGenes p2.brain.getGenes) (k + 3)).1)
          (generation + 1) := ⟨_, rfl⟩
      obtain ⟨children, k2, hb, hch, hlen⟩ := ih (newPop ++ [child])
        (Brain.fresh rng (mutate rng rate (crossover (rng (k + 2))
              p1.brain.getGenes p2.brain.getGenes) (k + 3)).2).2
      refine ⟨child :: children, k2, ?_, ?_, ?_⟩
      · rw [breed, if_pos hlt, hp1, hp2]
        simp only [← hchild, hb, List.append_assoc, List.singleton_append]
      · intro c hc
        rcases List.mem_cons.1 hc with rfl | hc
        · exact ⟨p1, p2, _, _, _, hm1, hm2, hchild⟩
        · exact hch c hc
      · intro hf _
        have := hlen (by simp only [List.length_append, List.length_singleton]; omega)
          (by simp only [List.length_append, List.length_singleton]; omega)
        simpa only [List.append_assoc, List.singleton_append] using this
    · refine ⟨[], k, by simp [breed, hlt], by simp, ?_⟩
      intro _ h2
      simp only [List.append_nil]
      omega

/-! ### Auxiliary facts about `evolve` -/

theorem sortByFitness_perm (pop : List Car) : (sortByFitness pop).Perm pop :=
  List.perm_insertionSort fitnessGE pop

theorem sortByFitness_sorted (pop : List Car) : (sortByFitness pop).Sorted fitnessGE :=
  List.sorted_insertionSort fitnessGE pop

theorem sortByFitness_two (pop : List Car) (h : 2 ≤ pop.length) :
    ∃ e0 e1 rest, sortByFitness pop = e0 :: e1 :: rest := by
  have hl : (sortByFitness pop).length = pop.length := (sortByFitness_perm pop).length_eq
  match hs : sortByFitness pop with
  | [] => rw [hs] at hl; simp at hl; omega
  | [_] => rw [hs] at hl; simp at hl; omega
  | e0 :: e1 :: rest => exact ⟨e0, e1, rest, rfl⟩

theorem evolve_returns (m : MathFns) (track : Track) (rng : Rng) (rate : ℚ) (s : Sim)
    (hv : rng.Valid) (hpop : 2 ≤ s.population.length) :
    ∃ e0 e1 rest children k,
      sortByFitness s.population = e0 :: e1 :: rest ∧
      evolve m track rng rate s = .returned
        { population := ([Car.new track e0.brain.clone s.generation,
                          Car.new track e1.brain.clone s.generation] ++ children).map
                            (Car.reset m track),
          generation := s.generation + 1,
          bestCar := some e0,
          populationSize := s.populationSize,
          cursor := k } ∧
      (∀ c ∈ children, IsChildOf track rng rate (sortByFitness s.population) s.generation c) ∧
      (2 ≤ s.populationSize → 2 + children.length = s.populationSize) := by
  obtain ⟨e0, e1, rest, hs⟩ := sortByFitness_two s.population hpop
  have hn : 0 < (sortByFitness s.population).length := by rw [hs]; simp
  obtain ⟨children, k, hb, hch, hlen⟩ :=
    breed_returns track rng rate (sortByFitness s.population) s.populationSize s.generation
      hv hn s.populationSize
      [Car.new track e0.brain.clone s.generation, Car.new track e1.brain.clone s.generation]
      s.cursor
  refine ⟨e0, e1, rest, children, k, hs, ?_, hch, ?_⟩
  · unfold evolve
    simp only [hs] at hb ⊢
    simp only [List.getElem?_cons_zero, List.getElem?_cons_succ, hb]
  · intro h2
    have := hlen (by simp) (by simpa using h2)
    simp only [List.length_append, List.length_cons, List.length_nil] at this
    omega

theorem demoBrain_genomeLength (w : ℚ) :
    (demoBrain w).genomeLength ≤ (demoBrain w).weights.length := by
  show (11 + 1) * 12 + (12 + 1) * 2 ≤ (List.replicate 170 w).length
  rw [List.length_replicate]

theorem demoRng_valid : demoRng.Valid := by
  intro k
  constructor <;> norm_num [demoRng]

/-! ### Claims about `evolve` -/

/-- C2: elitism. For a finished population of at least 2 cars, a configured size
of at least 2 and any draws in `[0,1)` and mutation rate, `evolve` returns, and
the old population is, up to order, `best :: second :: rest` with `best` of
maximal fitness and `second` maximal among the others; the first new car holds
exactly the weights of `best` and the second new car exactly those of `second`. -/
theorem evolve_elitism (m : MathFns) (track : Track) (rng : Rng) (rate : ℚ) (s : Sim)
    (hv : rng.Valid) (hpop : 2 ≤ s.population.length) (_hsize : 2 ≤ s.populationSize) :
    ∃ s2 best second rest,
      evolve m track rng rate s = .returned s2 ∧
      (best :: second :: rest).Perm s.population ∧
      (∀ c ∈ s.population, c.fitness ≤ best.fitness) ∧
      (∀ c ∈ rest, c.fitness ≤ second.fitness) ∧
      s2.population[0]?.map (fun c => c.brain.weights) = some best.brain.weights ∧
      s2.population[1]?.map (fun c => c.brain.weights) = some second.brain.weights := by
  obtain ⟨e0, e1, rest, children, k, hs, hev, -, -⟩ :=
    evolve_returns m track rng rate s hv hpop
  have hperm := sortByFitness_perm s.population
  have hsorted := sortByFitness_sorted s.population
  rw [hs] at hperm hsorted
  rw [List.sorted_cons, List.sorted_cons] at hsorted
  refine ⟨_, e0, e1, rest, hev, hperm, ?_, ?_, ?_, ?_⟩
  · intro c hc
    rcases List.mem_cons.1 (hperm.mem_iff.2 hc) with rfl | hc
    · exact le_refl _
    · exact hsorted.1 c hc
  · intro c hc
    exact hsorted.2.1 c hc
  · simp [Car.reset, Car.new, Brain.clone, Brain.ofWeights]
  · simp [Car.reset, Car.new, Brain.clone, Brain.ofWeights]

/-- C2 witness: the three-car population `demoSim`. -/
theorem evolve_elitism_witness :
    ∃ s2 best second rest,
      evolve demoMath demoTrack demoRng (1 / 10) demoSim = .returned s2 ∧
      (best :: second :: rest).Perm demoSim.population ∧
      (∀ c ∈ demoSim.population, c.fitness ≤ best.fitness) ∧
      (∀ c ∈ rest, c.fitness ≤ second.fitness) ∧
      s2.population[0]?.map (fun c => c.brain.weights) = some best.brain.weights ∧
      s2.population[1]?.map (fun c => c.brain.weights) = some second.brain.weights :=
  evolve_elitism demoMath demoTrack demoRng (1 / 10) demoSim demoRng_valid
    (by decide) (by decide)

/-- C3: for a configured size of at least 2, a finished population of at least 2
cars and any draws in `[0,1)`, `evolve` returns with exactly `populationSize`
cars and with the generation index one above its old value. -/
theorem evolve_size_generation (m : MathFns) (track : Track) (rng : Rng) (rate : ℚ) (s : Sim)
    (hv : rng.Valid) (hpop : 2 ≤ s.population.length) (hsize : 2 ≤ s.populationSize) :
    ∃ s2, evolve m track rng rate s = .returned s2 ∧
      s2.population.length = s.populationSize ∧
      s2.generation = s.generation + 1 := by
  obtain ⟨e0, e1, rest, children, k, -, hev, -, hlen⟩ :=
    evolve_returns m track rng rate s hv hpop
  refine ⟨_, hev, ?_, rfl⟩
  have := hlen hsize
  simp only [List.length_map, List.length_append, List.length_cons, List.length_nil]
  omega

/-- C3 witness: the three-car population `demoSim`. -/
theorem evolve_size_generation_witness :
    ∃ s2, evolve demoMath demoTrack demoRng (1 / 10) demoSim = .returned s2 ∧
      s2.population.length = demoSim.populationSize ∧
      s2.generation = demoSim.generation + 1 :=
  evolve_size_generation demoMath demoTrack demoRng (1 / 10) demoSim demoRng_valid
    (by decide) (by decide)

/-! ### Auxiliary facts about the sensors -/

theorem getIntersection_offset_bounds {m : MathFns} {A B C D : Point} {h : Hit}
    (hh : getIntersection m A B C D = some h) : 0 ≤ h.offset ∧ h.offset ≤ 1 := by
  unfold getIntersection at hh
  dsimp only at hh
  split at hh
  · split at hh
    · rename_i hb ht
      simp only [Option.some.injEq] at hh
      subst hh
      exact ⟨ht.1, ht.2.1⟩
    · simp at hh
  · simp at hh

theorem updateMin_bounds (m : MathFns) (A B C D : Point) (minD : ℚ)
    (h0 : 0 ≤ minD) (h1 : minD ≤ 1) :
    0 ≤ updateMin (getIntersection m A B C D) minD ∧
    updateMin (getIntersection m A B C D) minD ≤ 1 := by
  unfold updateMin
  split
  · rename_i h hh
    have := getIntersection_offset_bounds hh
    split
    · exact this
    · exact ⟨h0, h1⟩
  · exact ⟨h0, h1⟩

theorem scanEdges_bounds (m : MathFns) (A B : Point) :
    ∀ (poly : List Point) (minD : ℚ), 0 ≤ minD → minD ≤ 1 →
      0 ≤ scanEdges m A B poly minD ∧ scanEdges m A B poly minD ≤ 1 := by
  intro poly
  induction poly with
  | nil => intro minD h0 h1; simpa [scanEdges] using ⟨h0, h1⟩
  | cons p rest ih =>
    intro minD h0 h1
    cases rest with
    | nil => simpa [scanEdges] using ⟨h0, h1⟩
    | cons q rest =>
      rw [scanEdges]
      have hb := updateMin_bounds m A B p q minD h0 h1
      exact ih _ hb.1 hb.2

theorem checkPoly_bounds (m : MathFns) (A B : Point) (poly : List Point) (minD : ℚ)
    (hne : poly ≠ []) (h0 : 0 ≤ minD) (h1 : minD ≤ 1) :
    ∃ d, checkPoly m A B poly minD = some d ∧ 0 ≤ d ∧ d ≤ 1 := by
  obtain ⟨first, hfirst⟩ : ∃ first, poly.head? = some first := by
    cases poly with
    | nil => exact absurd rfl hne
    | cons p rest => exact ⟨p, rfl⟩
  obtain ⟨last, hlast⟩ : ∃ last, poly.getLast? = some last :=
    ⟨poly.getLast hne, List.getLast?_eq_getLast poly hne⟩
  have hs := scanEdges_bounds m A B poly minD h0 h1
  refine ⟨updateMin (getIntersection m A B last first) (scanEdges m A B poly minD), ?_, ?_⟩
  · simp only [checkPoly, hlast, hfirst]
  · exact updateMin_bounds m A B last first _ hs.1 hs.2

theorem castRay_bounds (m : MathFns) (track : Track) (pos : Point) (angle : ℚ) (i : Nat)
    (hin : track.innerWall ≠ []) (hout : track.outerWall ≠ []) :
    ∃ d, castRay m track pos angle i = some d ∧ 0 ≤ d ∧ d ≤ 1 := by
  obtain ⟨d1, hd1, h0, h1⟩ :=
    checkPoly_bounds m pos (rayEnd m pos angle i) track.innerWall 1 hin (by norm_num) (le_refl _)
  obtain ⟨d2, hd2, hb⟩ :=
    checkPoly_bounds m pos (rayEnd m pos angle i) track.outerWall d1 hout h0 h1
  exact ⟨d2, by simp only [castRay, hd1, hd2], hb⟩

theorem castRays_bounds (m : MathFns) (track : Track) (pos : Point) (angle : ℚ)
    (hin : track.innerWall ≠ []) (hout : track.outerWall ≠ []) :
    ∀ (n i : Nat) (acc : List ℚ), (∀ r ∈ acc, 0 ≤ r ∧ r ≤ 1) →
      ∃ rs, castRays m track pos angle n i acc = .returned rs ∧
        rs.length = acc.length + n ∧ ∀ r ∈ rs, 0 ≤ r ∧ r ≤ 1 := by
  intro n
  induction n with
  | zero => intro i acc hacc; exact ⟨acc, rfl, rfl, hacc⟩
  | succ n ih =>
    intro i acc hacc
    obtain ⟨d, hd, hb⟩ := castRay_bounds m track pos angle i hin hout
    obtain ⟨rs, hrs, hlen, hall⟩ := ih (i + 1) (acc ++ [d]) (by
      intro r hr
      rcases List.mem_append.1 hr with hr | hr
      · exact hacc r hr
      · rw [List.mem_singleton.1 hr]; exact hb)
    refine ⟨rs, by rw [castRays, hd]; exact hrs, ?_, hall⟩
    rw [hlen, List.length_append, List.length_singleton]
    omega

/-! ### Auxiliary facts about `step` -/

theorem ageTick_pos (m : MathFns) (dt : ℚ) (c : Car) : (ageTick m dt c).pos = c.pos := by
  unfold ageTick; dsimp only; split <;> rfl

theorem ageTick_angle (m : MathFns) (dt : ℚ) (c : Car) : (ageTick m dt c).angle = c.angle := by
  unfold ageTick; dsimp only; split <;> rfl

theorem collisionCheck_sensors (c : Car) : (collisionCheck c).sensors = c.sensors := by
  unfold collisionCheck; split <;> rfl

theorem score_sensors (m : MathFns) (track : Track) (c : Car) :
    (score m track c).state.sensors = c.sensors := by
  unfold score
  dsimp only
  split
  · rfl
  · unfold capture
    simp only [Outcome.state]
    split <;> split <;> rfl

theorem drive_sensors (m : MathFns) (o0 o1 : ℚ) (c : Car) :
    (drive m o0 o1 c).sensors = c.sensors := rfl

theorem control_sensors (m : MathFns) (track : Track) (c : Car) :
    (control m track c).state.sensors = c.sensors := by
  unfold control
  dsimp only
  split
  · rfl
  · split
    · rw [score_sensors, drive_sensors]
    · rfl

theorem step_eq_control (m : MathFns) (track : Track) (dt : ℚ) (c : Car) (rs : List ℚ)
    (halive : c.alive = true)
    (hrs : castRays m track c.pos c.angle rays 0 [] = .returned rs) :
    Car.step m track dt c
      = control m track (collisionCheck { ageTick m dt c with sensors := rs }) := by
  have h : castRays m track (ageTick m dt c).pos (ageTick m dt c).angle rays 0 []
      = .returned rs := by
    rw [ageTick_pos, ageTick_angle]; exact hrs
  unfold Car.step
  rw [if_neg (by simp [halive])]
  dsimp only
  rw [h]

theorem step_sensors (m : MathFns) (track : Track) (dt : ℚ) (c : Car) (rs : List ℚ)
    (halive : c.alive = true)
    (hrs : castRays m track c.pos c.angle rays 0 [] = .returned rs) :
    (Car.step m track dt c).state.sensors = rs := by
  rw [step_eq_control m track dt c rs halive hrs, control_sensors, collisionCheck_sensors]

/-- C5: for a living car in any pose and non-empty wall polylines, the car
holds after `step` exactly 9 sensor readings, each in `[0, 1]`. -/
theorem step_sensors_normalized (m : MathFns) (track : Track) (dt : ℚ) (c : Car)
    (halive : c.alive = true)
    (hin : track.innerWall ≠ []) (hout : track.outerWall ≠ []) :
    (Car.step m track dt c).state.sensors.length = 9 ∧
    ∀ r ∈ (Car.step m track dt c).state.sensors, 0 ≤ r ∧ r ≤ 1 := by
  obtain ⟨rs, hrs, hlen, hall⟩ :=
    castRays_bounds m track c.pos c.angle hin hout rays 0 [] (by simp)
  rw [step_sensors m track dt c rs halive hrs]
  exact ⟨by simpa [rays] using hlen, hall⟩

/-- C5 witness: a new car at the start of the square track. -/
theorem step_sensors_normalized_witness :
    (Car.step demoMath demoTrack (1 / 2) demoLiveCar).state.sensors.length = 9 ∧
    ∀ r ∈ (Car.step demoMath demoTrack (1 / 2) demoLiveCar).state.sensors, 0 ≤ r ∧ r ≤ 1 :=
  step_sensors_normalized demoMath demoTrack (1 / 2) demoLiveCar rfl (by decide) (by decide)

/-- C4: evaluation at the three-car population `demoSim` of generation 0:
`evolve` returns with the global generation index 1, the bred car has
generation 1, and the two elite cars have generation 0. -/
theorem evolve_elite_generation_stale :
    (evolve demoMath demoTrack demoRng (1 / 10) demoSim).isReturned = true ∧
    (evolve demoMath demoTrack demoRng (1 / 10) demoSim).state.generation = 1 ∧
    (evolve demoMath demoTrack demoRng (1 / 10) demoSim).state.population.map
      (fun c => c.generation) = [0, 0, 1] := by
  decide!

/-- C8: death is permanent. For a car with `alive = false` and any `dt`, `step`
returns the car itself: position, velocity, heading, age, checkpoint index,
fitness, sensors, steer and throttle are unchanged, and `alive` is still false. -/
theorem step_dead_unchanged (m : MathFns) (track : Track) (dt : ℚ) (c : Car)
    (hdead : c.alive = false) :
    Car.step m track dt c = .returned c ∧
    (Car.step m track dt c).state.alive = false := by
  have h : Car.step m track dt c = .returned c := by
    unfold Car.step
    rw [if_pos hdead]
  exact ⟨h, by rw [h]; exact hdead⟩

/-- C8 witness: a finished car of the demo population. -/
theorem step_dead_unchanged_witness :
    Car.step demoMath demoTrack (1 / 2) (demoCar 1 (3 / 2)) = .returned (demoCar 1 (3 / 2)) ∧
    (Car.step demoMath demoTrack (1 / 2) (demoCar 1 (3 / 2))).state.alive = false :=
  step_dead_unchanged demoMath demoTrack (1 / 2) (demoCar 1 (3 / 2)) rfl

/-! ### Claims about `getIntersection` -/

theorem tTop_eq_of_common {A B C D : Point} {t u : ℚ}
    (ex : A.x + t * (B.x - A.x) = C.x + u * (D.x - C.x))
    (ey : A.y + t * (B.y - A.y) = C.y + u * (D.y - C.y)) :
    tTop A B C D = t * bottom A B C D := by
  unfold tTop bottom
  linear_combination (D.x - C.x) * ey - (D.y - C.y) * ex

theorem uTop_eq_of_common {A B C D : Point} {t u : ℚ}
    (ex : A.x + t * (B.x - A.x) = C.x + u * (D.x - C.x))
    (ey : A.y + t * (B.y - A.y) = C.y + u * (D.y - C.y)) :
    uTop A B C D = u * bottom A B C D := by
  unfold uTop bottom
  linear_combination (A.y - B.y) * ex - (A.x - B.x) * ey

theorem common_of_params (A B C D : Point) (hb : bottom A B C D ≠ 0) :
    A.x + tTop A B C D / bottom A B C D * (B.x - A.x)
      = C.x + uTop A B C D / bottom A B C D * (D.x - C.x) ∧
    A.y + tTop A B C D / bottom A B C D * (B.y - A.y)
      = C.y + uTop A B C D / bottom A B C D * (D.y - C.y) := by
  constructor
  · field_simp
    unfold tTop uTop bottom
    ring
  · field_simp
    unfold tTop uTop bottom
    ring

theorem params_exact (m : MathFns) (hfl : ∀ q, m.fl q = q) (A B C D : Point) :
    bottomR m A B C D = bottom A B C D ∧
    tParam m A B C D = tTop A B C D / bottom A B C D ∧
    uParam m A B C D = uTop A B C D / bottom A B C D := by
  simp only [tTopR, uTopR, bottomR, tParam, uParam, hfl, tTop, uTop, bottom, and_self]

theorem lerpR_exact (m : MathFns) (hfl : ∀ q, m.fl q = q) (a b t : ℚ) :
    lerpR m a b t = lerp a b t := by
  simp only [lerpR, lerp, hfl]

theorem getIntersection_eq_some_iff (m : MathFns) (A B C D : Point) (h : Hit) :
    getIntersection m A B C D = some h ↔
      bottomR m A B C D ≠ 0 ∧
      0 ≤ tParam m A B C D ∧ tParam m A B C D ≤ 1 ∧
      0 ≤ uParam m A B C D ∧ uParam m A B C D ≤ 1 ∧
      h = { x := lerpR m A.x B.x (tParam m A B C D),
            y := lerpR m A.y B.y (tParam m A B C D),
            offset := tParam m A B C D } := by
  unfold getIntersection
  dsimp only
  constructor
  · intro hh
    split at hh
    · split at hh
      · rename_i hb ht
        simp only [Option.some.injEq] at hh
        exact ⟨hb, ht.1, ht.2.1, ht.2.2.1, ht.2.2.2, hh.symm⟩
      · simp at hh
    · simp at hh
  · rintro ⟨hb, h1, h2, h3, h4, rfl⟩
    rw [if_pos hb, if_pos ⟨h1, h2, h3, h4⟩]

theorem getIntersection_exact (m : MathFns) (hfl : ∀ q, m.fl q = q) (A B C D : Point) :
    (bottom A B C D ≠ 0 →
      ((∃ h, getIntersection m A B C D = some h) ↔ SegmentsMeet A B C D)) ∧
    (∀ h, getIntersection m A B C D = some h →
      h.x = A.x + h.offset * (B.x - A.x) ∧ h.y = A.y + h.offset * (B.y - A.y) ∧
      OnSegment ⟨h.x, h.y⟩ C D) := by
  obtain ⟨eb, et, eu⟩ := params_exact m hfl A B C D
  refine ⟨?_, ?_⟩
  · intro hb
    constructor
    · rintro ⟨h, hh⟩
      obtain ⟨-, t0, t1, u0, u1, -⟩ := (getIntersection_eq_some_iff m A B C D h).1 hh
      rw [et] at t0 t1
      rw [eu] at u0 u1
      obtain ⟨ex, ey⟩ := common_of_params A B C D hb
      exact ⟨⟨A.x + tTop A B C D / bottom A B C D * (B.x - A.x),
               A.y + tTop A B C D / bottom A B C D * (B.y - A.y)⟩,
              ⟨_, t0, t1, rfl, rfl⟩, ⟨_, u0, u1, ex, ey⟩⟩
    · rintro ⟨P, ⟨t, t0, t1, px, py⟩, ⟨u, u0, u1, qx, qy⟩⟩
      have ex : A.x + t * (B.x - A.x) = C.x + u * (D.x - C.x) := by rw [← px, ← qx]
      have ey : A.y + t * (B.y - A.y) = C.y + u * (D.y - C.y) := by rw [← py, ← qy]
      have ht : tTop A B C D / bottom A B C D = t := by
        rw [div_eq_iff hb]; exact tTop_eq_of_common ex ey
      have hu : uTop A B C D / bottom A B C D = u := by
        rw [div_eq_iff hb]; exact uTop_eq_of_common ex ey
      refine ⟨_, (getIntersection_eq_some_iff m A B C D _).2 ⟨?_, ?_, ?_, ?_, ?_, rfl⟩⟩
      · rw [eb]; exact hb
      · rw [et, ht]; exact t0
      · rw [et, ht]; exact t1
      · rw [eu, hu]; exact u0
      · rw [eu, hu]; exact u1
  · intro h hh
    obtain ⟨hb, -, -, u0, u1, rfl⟩ := (getIntersection_eq_some_iff m A B C D h).1 hh
    rw [eb] at hb
    rw [eu] at u0 u1
    obtain ⟨ex, ey⟩ := common_of_params A B C D hb
    simp only [lerpR_exact m hfl, et, lerp]
    refine ⟨by ring, by ring, ⟨_, u0, u1, ?_, ?_⟩⟩
    · show A.x + (B.x - A.x) * (tTop A B C D / bottom A B C D) = _
      rw [← ex]; ring
    · show A.y + (B.y - A.y) * (tTop A B C D / bottom A B C D) = _
      rw [← ey]; ring

/-- C7 counterexample: in double arithmetic the segments from (2.6, 0.6) to
(0.1, 2.1) and from (0.5, 1.0) to (0.1, 2.1) are not parallel and share the end
point (0.1, 2.1), yet `getIntersection` returns `null`: the computed `t` is
`1.0000000000000002`. And for A = (1.0, 1.8), B = (2.3, 0.1), C = (1.6, 1.4),
D = (0.4, 2.2), not parallel either, it returns a hit (the computed `t` is 0)
though the segments have no common point. -/
theorem getIntersection_rounding_counterexample :
    (bottomR doubleMath missA missB missC missB ≠ 0 ∧
      bottom missA missB missC missB ≠ 0 ∧
      SegmentsMeet missA missB missC missB ∧
      getIntersection doubleMath missA missB missC missB = none ∧
      tParam doubleMath missA missB missC missB = 1 + 1 / 2 ^ 52) ∧
    (bottomR doubleMath ghostA ghostB ghostC ghostD ≠ 0 ∧
      bottom ghostA ghostB ghostC ghostD ≠ 0 ∧
      ¬ SegmentsMeet ghostA ghostB ghostC ghostD ∧
      getIntersection doubleMath ghostA ghostB ghostC ghostD
        = some { x := 1, y := fl64 (9 / 5), offset := 0 }) := by
  refine ⟨⟨by decide!, by decide!, ?_, by decide!, by decide!⟩,
    ⟨by decide!, by decide!, ?_, by decide!⟩⟩
  · exact ⟨missB, ⟨1, by norm_num, le_refl _, by ring, by ring⟩,
      ⟨1, by norm_num, le_refl _, by ring, by ring⟩⟩
  · intro hmeet
    have hb : bottom ghostA ghostB ghostC ghostD ≠ 0 := by decide!
    have hn : getIntersection demoMath ghostA ghostB ghostC ghostD = none := by decide!
    obtain ⟨h, hh⟩ :=
      ((getIntersection_exact demoMath (fun _ => rfl) ghostA ghostB ghostC ghostD).1 hb).2 hmeet
    rw [hn] at hh
    exact absurd hh (by simp)

/-- C7, as amended: `getIntersection` is the parametric test on the computed
parameters. It returns a hit exactly when the computed `bottom` is not 0 and the
computed `t = tTop/bottom` and `u = uTop/bottom` both lie in `[0,1]`; a hit has
`offset = t` in `[0,1]` and `(x, y) = (lerp(A.x,B.x,t), lerp(A.y,B.y,t))` as
computed; for `bottom = 0` it returns `null`. When no operation rounds, the
computed `bottom` is the exact one, for `bottom ≠ 0` a hit is returned exactly
when the segments `AB` and `CD` have a common point, and the point of a hit is
`A + offset*(B - A)` and lies on `CD`. -/
theorem getIntersection_computed_test (m : MathFns) (A B C D : Point) :
    ((∃ h, getIntersection m A B C D = some h) ↔
      bottomR m A B C D ≠ 0 ∧ 0 ≤ tParam m A B C D ∧ tParam m A B C D ≤ 1 ∧
        0 ≤ uParam m A B C D ∧ uParam m A B C D ≤ 1) ∧
    (∀ h, getIntersection m A B C D = some h →
      h.offset = tParam m A B C D ∧ 0 ≤ h.offset ∧ h.offset ≤ 1 ∧
      h.x = lerpR m A.x B.x h.offset ∧ h.y = lerpR m A.y B.y h.offset) ∧
    (bottomR m A B C D = 0 → getIntersection m A B C D = none) ∧
    ((∀ q, m.fl q = q) →
      bottomR m A B C D = bottom A B C D ∧
      (bottom A B C D ≠ 0 →
        ((∃ h, getIntersection m A B C D = some h) ↔ SegmentsMeet A B C D)) ∧
      (∀ h, getIntersection m A B C D = some h →
        h.x = A.x + h.offset * (B.x - A.x) ∧ h.y = A.y + h.offset * (B.y - A.y) ∧
        OnSegment ⟨h.x, h.y⟩ C D)) := by
  refine ⟨?_, ?_, ?_, ?_⟩
  · constructor
    · rintro ⟨h, hh⟩
      obtain ⟨hb, t0, t1, u0, u1, -⟩ := (getIntersection_eq_some_iff m A B C D h).1 hh
      exact ⟨hb, t0, t1, u0, u1⟩
    · rintro ⟨hb, t0, t1, u0, u1⟩
      exact ⟨_, (getIntersection_eq_some_iff m A B C D _).2 ⟨hb, t0, t1, u0, u1, rfl⟩⟩
  · intro h hh
    obtain ⟨-, t0, t1, -, -, rfl⟩ := (getIntersection_eq_some_iff m A B C D h).1 hh
    exact ⟨rfl, t0, t1, rfl, rfl⟩
  · intro hb
    unfold getIntersection
    rw [if_neg (by simpa using hb)]
  · intro hfl
    obtain ⟨h1, h2⟩ := getIntersection_exact m hfl A B C D
    exact ⟨(params_exact m hfl A B C D).1, h1, h2⟩

/-- C7 witness: without rounding, the diagonals of the square with corners (0,0)
and (2,2) are not parallel, so a hit is returned exactly when they have a
common point. -/
theorem getIntersection_computed_test_witness :
    (∀ q, demoMath.fl q = q) ∧ bottom ⟨0, 0⟩ ⟨2, 2⟩ ⟨0, 2⟩ ⟨2, 0⟩ ≠ 0 ∧
    ((∃ h, getIntersection demoMath ⟨0, 0⟩ ⟨2, 2⟩ ⟨0, 2⟩ ⟨2, 0⟩ = some h) ↔
      SegmentsMeet ⟨0, 0⟩ ⟨2, 2⟩ ⟨0, 2⟩ ⟨2, 0⟩) :=
  ⟨fun _ => rfl, by norm_num [bottom],
   ((getIntersection_computed_test demoMath ⟨0, 0⟩ ⟨2, 2⟩ ⟨0, 2⟩ ⟨2, 0⟩).2.2.2
      (fun _ => rfl)).2.1 (by norm_num [bottom])⟩

/-! ### Claims about the sensor readings -/

theorem updateMin_eq_one (hit : Option Hit) (minD : ℚ) (h1 : minD ≤ 1) :
    updateMin hit minD ≤ 1 ∧
    (updateMin hit minD = 1 ↔ minD = 1 ∧ ∀ h, hit = some h → 1 ≤ h.offset) := by
  cases hit with
  | none => simp [updateMin, h1]
  | some h =>
    simp only [updateMin, Option.some.injEq, forall_eq']
    split
    · rename_i hlt
      refine ⟨by linarith, ?_⟩
      constructor
      · intro he; linarith
      · rintro ⟨hm, ho⟩; linarith
    · rename_i hge
      refine ⟨h1, ?_⟩
      constructor
      · intro he; exact ⟨he, by linarith [not_lt.1 hge]⟩
      · rintro ⟨hm, _⟩; exact hm

theorem scanEdges_eq_one (m : MathFns) (A B : Point) :
    ∀ (poly : List Point) (minD : ℚ), minD ≤ 1 →
      scanEdges m A B poly minD ≤ 1 ∧
      (scanEdges m A B poly minD = 1 ↔
        minD = 1 ∧ ∀ e ∈ poly.zip poly.tail, ∀ h,
          getIntersection m A B e.1 e.2 = some h → 1 ≤ h.offset) := by
  intro poly
  induction poly with
  | nil => intro minD h1; simp [scanEdges, h1]
  | cons p rest ih =>
    intro minD h1
    cases rest with
    | nil => simp [scanEdges, h1]
    | cons q rest =>
      rw [scanEdges]
      obtain ⟨hu1, hu⟩ := updateMin_eq_one (getIntersection m A B p q) minD h1
      obtain ⟨hs1, hs⟩ := ih (updateMin (getIntersection m A B p q) minD) hu1
      refine ⟨hs1, ?_⟩
      rw [hs, hu]
      simp only [List.tail_cons, List.zip_cons_cons, List.mem_cons, forall_eq_or_imp]
      tauto

theorem checkPoly_eq_one (m : MathFns) (A B : Point) (poly : List Point) (minD d : ℚ) (h1 : minD ≤ 1)
    (hd : checkPoly m A B poly minD = some d) :
    d ≤ 1 ∧
    (d = 1 ↔ minD = 1 ∧ ∀ e ∈ loopEdges poly, ∀ h,
      getIntersection m A B e.1 e.2 = some h → 1 ≤ h.offset) := by
  unfold checkPoly at hd
  unfold loopEdges
  split at hd
  · rename_i last first hlast hfirst
    simp only [Option.some.injEq] at hd
    subst hd
    obtain ⟨hs1, hs⟩ := scanEdges_eq_one m A B poly minD h1
    obtain ⟨hu1, hu⟩ := updateMin_eq_one (getIntersection m A B last first) _ hs1
    refine ⟨hu1, ?_⟩
    rw [hu, hs]
    simp only [List.mem_append, List.mem_singleton]
    constructor
    · rintro ⟨⟨hm, hz⟩, hl⟩
      refine ⟨hm, ?_⟩
      rintro e (he | rfl) h hh
      · exact hz e he h hh
      · exact hl h hh
    · rintro ⟨hm, hall⟩
      exact ⟨⟨hm, fun e he => hall e (Or.inl he)⟩, fun h hh => hall _ (Or.inr rfl) h hh⟩
  · simp at hd

theorem castRay_eq_one (m : MathFns) (track : Track) (pos : Point) (angle : ℚ) (i : Nat)
    (d : ℚ) (hd : castRay m track pos angle i = some d) :
    d = 1 ↔ ∀ e ∈ wallEdges track, ∀ h,
      getIntersection m pos (rayEnd m pos angle i) e.1 e.2 = some h → 1 ≤ h.offset := by
  unfold castRay at hd
  split at hd
  · rename_i d1 hd1
    obtain ⟨h1, hin⟩ := checkPoly_eq_one m _ _ _ 1 d1 (le_refl _) hd1
    obtain ⟨_, hout⟩ := checkPoly_eq_one m _ _ _ d1 d h1 hd
    rw [hout, hin]
    unfold wallEdges
    simp only [List.mem_append, true_and]
    constructor
    · rintro ⟨ha, hb⟩ e (he | he) h hh
      · exact ha e he h hh
      · exact hb e he h hh
    · intro hall
      exact ⟨fun e he => hall e (Or.inl he), fun e he => hall e (Or.inr he)⟩
  · simp at hd

theorem hit_before_iff (m : MathFns) (A B C D : Point) :
    (∃ h, getIntersection m A B C D = some h ∧ h.offset < 1) ↔ HitsBefore m A B C D := by
  constructor
  · rintro ⟨h, hh, hlt⟩
    obtain ⟨hb, t0, -, u0, u1, rfl⟩ := (getIntersection_eq_some_iff m A B C D h).1 hh
    exact ⟨hb, t0, hlt, u0, u1⟩
  · rintro ⟨hb, t0, t1, u0, u1⟩
    exact ⟨_, (getIntersection_eq_some_iff m A B C D _).2
      ⟨hb, t0, le_of_lt t1, u0, u1, rfl⟩, t1⟩

theorem hitsBefore_exact (m : MathFns) (hfl : ∀ q, m.fl q = q) (A B C D : Point) :
    HitsBefore m A B C D ↔ CrossesBefore A B C D := by
  obtain ⟨eb, et, eu⟩ := params_exact m hfl A B C D
  unfold HitsBefore CrossesBefore
  rw [eb, et, eu]
  constructor
  · rintro ⟨hb, t0, t1, u0, u1⟩
    obtain ⟨ex, ey⟩ := common_of_params A B C D hb
    exact ⟨hb, _, _, t0, t1, u0, u1, ex, ey⟩
  · rintro ⟨hb, t, u, t0, t1, u0, u1, ex, ey⟩
    have ht : tTop A B C D / bottom A B C D = t := by
      rw [div_eq_iff hb]; exact tTop_eq_of_common ex ey
    have hu : uTop A B C D / bottom A B C D = u := by
      rw [div_eq_iff hb]; exact uTop_eq_of_common ex ey
    rw [ht, hu]
    exact ⟨hb, t0, t1, u0, u1⟩

theorem castRays_extends (m : MathFns) (track : Track) (pos : Point) (angle : ℚ) :
    ∀ (n i : Nat) (acc rs : List ℚ),
      castRays m track pos angle n i acc = .returned rs → ∃ rs2, rs = acc ++ rs2 := by
  intro n
  induction n with
  | zero =>
    intro i acc rs h
    simp only [castRays, Outcome.returned.injEq] at h
    exact ⟨[], by simp [h]⟩
  | succ n ih =>
    intro i acc rs h
    rw [castRays] at h
    split at h
    · rename_i d _
      obtain ⟨rs2, h2⟩ := ih _ _ _ h
      exact ⟨d :: rs2, by simp [h2]⟩
    · simp at h

theorem castRays_getElem (m : MathFns) (track : Track) (pos : Point) (angle : ℚ) :
    ∀ (n i : Nat) (acc rs : List ℚ),
      castRays m track pos angle n i acc = .returned rs →
      ∀ j, j < n → rs[acc.length + j]? = castRay m track pos angle (i + j) := by
  intro n
  induction n with
  | zero => intro i acc rs _ j hj; omega
  | succ n ih =>
    intro i acc rs hrs j hj
    rw [castRays] at hrs
    split at hrs
    · rename_i d hd
      cases j with
      | zero =>
        obtain ⟨rs2, h2⟩ := castRays_extends m track pos angle n (i + 1) (acc ++ [d]) rs hrs
        rw [h2, Nat.add_zero, Nat.add_zero, hd, List.append_assoc,
          List.getElem?_append_right (le_refl _)]
        simp
      | succ j =>
        have := ih (i + 1) (acc ++ [d]) rs hrs j (by omega)
        rw [List.length_append, List.length_singleton] at this
        rw [show acc.length + (j + 1) = acc.length + 1 + j by omega,
            show i + (j + 1) = i + 1 + j by omega]
        exact this
    · simp at hrs

/-- C6, as amended: for a living car, non-empty walls and a ray index `i < 9`,
the `i`-th reading after `step` equals 1 exactly when no edge of either closed
wall loop passes the test of `getIntersection` on that ray with an offset below
1 (computed `bottom ≠ 0`, computed `0 ≤ t < 1` and `0 ≤ u ≤ 1`). When no
operation rounds, this is: no edge that is non-parallel to the ray meets the ray
segment before its far end (at a ray parameter `t < 1`). -/
theorem sensor_clear_iff (m : MathFns) (track : Track) (dt : ℚ) (c : Car) (i : Nat)
    (halive : c.alive = true)
    (hin : track.innerWall ≠ []) (hout : track.outerWall ≠ []) (hi : i < 9) :
    ∃ r, (Car.step m track dt c).state.sensors[i]? = some r ∧
      (r = 1 ↔ ∀ e ∈ wallEdges track,
        ¬ HitsBefore m c.pos (rayEnd m c.pos c.angle i) e.1 e.2) ∧
      ((∀ q, m.fl q = q) →
        (r = 1 ↔ ∀ e ∈ wallEdges track,
          ¬ CrossesBefore c.pos (rayEnd m c.pos c.angle i) e.1 e.2)) := by
  obtain ⟨rs, hrs, -, -⟩ :=
    castRays_bounds m track c.pos c.angle hin hout rays 0 [] (by simp)
  obtain ⟨d, hd, -⟩ := castRay_bounds m track c.pos c.angle i hin hout
  have hget := castRays_getElem m track c.pos c.angle rays 0 [] rs hrs i (by simpa [rays] using hi)
  simp only [List.length_nil, Nat.zero_add] at hget
  have hmain : d = 1 ↔ ∀ e ∈ wallEdges track,
      ¬ HitsBefore m c.pos (rayEnd m c.pos c.angle i) e.1 e.2 := by
    rw [castRay_eq_one m track c.pos c.angle i d hd]
    constructor
    · intro hall e he hcross
      obtain ⟨h, hh, hlt⟩ := (hit_before_iff m _ _ _ _).2 hcross
      exact absurd (hall e he h hh) (not_le.2 hlt)
    · intro hall e he h hh
      by_contra hlt
      exact hall e he ((hit_before_iff m _ _ _ _).1 ⟨h, hh, not_le.1 hlt⟩)
  refine ⟨d, by rw [step_sensors m track dt c rs halive hrs, hget, hd], hmain, ?_⟩
  intro hfl
  rw [hmain]
  constructor
  · intro hall e he hc
    exact hall e he ((hitsBefore_exact m hfl _ _ _ _).2 hc)
  · intro hall e he hc
    exact hall e he ((hitsBefore_exact m hfl _ _ _ _).1 hc)

/-- C6 witness: ray 4 of a new car at the start of the square track, without
rounding. -/
theorem sensor_clear_iff_witness :
    (∀ q, demoMath.fl q = q) ∧
    ∃ r, (Car.step demoMath demoTrack (1 / 2) demoLiveCar).state.sensors[4]? = some r ∧
      (r = 1 ↔ ∀ e ∈ wallEdges demoTrack,
        ¬ HitsBefore demoMath demoLiveCar.pos
            (rayEnd demoMath demoLiveCar.pos demoLiveCar.angle 4) e.1 e.2) ∧
      ((∀ q, demoMath.fl q = q) →
        (r = 1 ↔ ∀ e ∈ wallEdges demoTrack,
          ¬ CrossesBefore demoLiveCar.pos
              (rayEnd demoMath demoLiveCar.pos demoLiveCar.angle 4) e.1 e.2)) :=
  ⟨fun _ => rfl,
   sensor_clear_iff demoMath demoTrack (1 / 2) demoLiveCar 4 rfl (by decide) (by decide)
    (by decide)⟩

/-- C6 counterexample: on `touchTrack` the middle ray (index 4, angle 0) of the
car at (0, 0) ends at (180, 0), a point of the wall edge from (180, -10) to
(180, 10); the edge shares that point with the ray segment and the reading is 1.
This is so in exact arithmetic and in double arithmetic alike. -/
theorem sensor_clear_counterexample :
    ¬ ((Car.step demoMath touchTrack (1 / 2) touchCar).state.sensors[4]? = some 1 ↔
        ∀ e ∈ wallEdges touchTrack,
          ¬ SegmentsMeet touchCar.pos (rayEnd demoMath touchCar.pos touchCar.angle 4) e.1 e.2) ∧
    ¬ ((Car.step doubleMath touchTrack (1 / 2) touchCar).state.sensors[4]? = some 1 ↔
        ∀ e ∈ wallEdges touchTrack,
          ¬ SegmentsMeet touchCar.pos
              (rayEnd doubleMath touchCar.pos touchCar.angle 4) e.1 e.2) := by
  have hmem : ((⟨180, -10⟩, ⟨180, 10⟩) : Point × Point) ∈ wallEdges touchTrack := by
    simp [wallEdges, loopEdges, touchTrack]
  have hpos : touchCar.pos = ⟨0, 0⟩ := by decide!
  have hmeet : SegmentsMeet ⟨0, 0⟩ ⟨180, 0⟩ ⟨180, -10⟩ ⟨180, 10⟩ :=
    ⟨⟨180, 0⟩, ⟨1, by norm_num, le_refl _, by norm_num, by norm_num⟩,
      ⟨1 / 2, by norm_num, by norm_num, by norm_num, by norm_num⟩⟩
  constructor
  · intro hiff
    have hreading :
        (Car.step demoMath touchTrack (1 / 2) touchCar).state.sensors[4]? = some 1 := by
      decide!
    have hend : rayEnd demoMath touchCar.pos touchCar.angle 4 = ⟨180, 0⟩ := by decide!
    have h := hiff.1 hreading _ hmem
    rw [hend, hpos] at h
    exact h hmeet
  · intro hiff
    have hreading :
        (Car.step doubleMath touchTrack (1 / 2) touchCar).state.sensors[4]? = some 1 := by
      decide!
    have hend : rayEnd doubleMath touchCar.pos touchCar.angle 4 = ⟨180, 0⟩ := by decide!
    have h := hiff.1 hreading _ hmem
    rw [hend, hpos] at h
    exact h hmeet

/-- The effect of rounding on a reading: in double arithmetic the middle ray of
the car at (0, 0.04450200000000001) on `grazeTrack` runs to
(180, 0.04450200000000001), just above the wall corner (50, 0.044502); no wall
edge has a point in common with the ray segment, yet the computed `u` of the edge
from (50, 0) to that corner rounds to 1 and the reading is
`0.27777777777777773`. -/
theorem sensor_rounding_example :
    (Car.step doubleMath grazeTrack (1 / 2) grazeCar).state.sensors[4]?
      = some (5003999585967217 / 18014398509481984) ∧
    uParam doubleMath grazeCar.pos (rayEnd doubleMath grazeCar.pos grazeCar.angle 4)
      ⟨50, 0⟩ ⟨50, fl64 (44502 / 1000000)⟩ = 1 ∧
    ∀ e ∈ wallEdges grazeTrack,
      ¬ SegmentsMeet grazeCar.pos (rayEnd doubleMath grazeCar.pos grazeCar.angle 4) e.1 e.2 := by
  refine ⟨by decide!, by decide!, ?_⟩
  have hdec : ∀ e ∈ wallEdges grazeTrack,
      bottom grazeCar.pos (rayEnd doubleMath grazeCar.pos grazeCar.angle 4) e.1 e.2 ≠ 0 ∧
      getIntersection demoMath grazeCar.pos
        (rayEnd doubleMath grazeCar.pos grazeCar.angle 4) e.1 e.2 = none := by
    decide!
  intro e he hmeet
  obtain ⟨hb, hn⟩ := hdec e he
  obtain ⟨h, hh⟩ := ((getIntersection_exact demoMath (fun _ => rfl) _ _ _ _).1 hb).2 hmeet
  rw [hn] at hh
  exact absurd hh (by simp)

/-! ### Auxiliary facts about `predict` -/

theorem weightedSum_some (xs ws : List ℚ) :
    ∀ (n i wIdx : Nat) (sum : ℚ), i + n ≤ xs.length → wIdx + n ≤ ws.length →
      ∃ s, weightedSum xs ws n i wIdx sum = some (s, wIdx + n) := by
  intro n
  induction n with
  | zero => intro i wIdx sum _ _; exact ⟨sum, rfl⟩
  | succ n ih =>
    intro i wIdx sum hx hw
    obtain ⟨s, hs⟩ := ih (i + 1) (wIdx + 1) (sum + xs[i] * ws[wIdx]) (by omega) (by omega)
    refine ⟨s, ?_⟩
    rw [weightedSum, List.getElem?_eq_getElem (by omega : i < xs.length),
      List.getElem?_eq_getElem (by omega : wIdx < ws.length)]
    simp only [hs]
    congr 2
    omega

theorem unitOut_some (m : MathFns) (xs ws : List ℚ) (n wIdx : Nat)
    (hx : n ≤ xs.length) (hw : wIdx + n + 1 ≤ ws.length) :
    ∃ a, unitOut m xs ws n wIdx = some (a, wIdx + n + 1) := by
  obtain ⟨s, hs⟩ := weightedSum_some xs ws n 0 wIdx 0 (by omega) (by omega)
  refine ⟨m.tanh (s + ws[wIdx + n]), ?_⟩
  unfold unitOut
  simp only [hs]
  rw [List.getElem?_eq_getElem (by omega : wIdx + n < ws.length)]

theorem layer_some (m : MathFns) (xs ws : List ℚ) (n : Nat) (hx : n ≤ xs.length) :
    ∀ (units wIdx : Nat) (acc : List ℚ), wIdx + units * (n + 1) ≤ ws.length →
      ∃ out, layer m xs ws n units wIdx acc = some (out, wIdx + units * (n + 1)) ∧
        out.length = acc.length + units := by
  intro units
  induction units with
  | zero => intro wIdx acc _; exact ⟨acc, by simp [layer], rfl⟩
  | succ units ih =>
    intro wIdx acc hw
    have hmul : (units + 1) * (n + 1) = units * (n + 1) + (n + 1) := Nat.succ_mul _ _
    obtain ⟨a, ha⟩ := unitOut_some m xs ws n wIdx hx (by omega)
    obtain ⟨out, hout, hlen⟩ := ih (wIdx + n + 1) (acc ++ [a]) (by omega)
    refine ⟨out, ?_, ?_⟩
    · rw [layer]
      simp only [ha, hout]
      congr 2
      omega
    · rw [hlen, List.length_append, List.length_singleton]
      omega

theorem predict_some (m : MathFns) (b : Brain) (inputs : List ℚ)
    (hi : b.i ≤ inputs.length) (hw : b.genomeLength ≤ b.weights.length) :
    ∃ out brain, b.predict m inputs = some (out, brain) ∧
      out.length = b.o ∧ brain.weights = b.weights := by
  unfold Brain.genomeLength at hw
  have e1 : b.h * (b.i + 1) = (b.i + 1) * b.h := Nat.mul_comm _ _
  have e2 : b.o * (b.h + 1) = (b.h + 1) * b.o := Nat.mul_comm _ _
  obtain ⟨hid, hhid, hlen⟩ := layer_some m inputs b.weights b.i hi b.h 0 [] (by omega)
  obtain ⟨out, hout, holen⟩ := layer_some m hid b.weights b.h (by simp [hlen]) b.o
    (0 + b.h * (b.i + 1)) [] (by omega)
  refine ⟨out, Brain.mk b.i b.h b.o b.weights (some inputs) (some hid) (some out),
    ?_, by simpa using holen, rfl⟩
  unfold Brain.predict
  simp only [hhid, hout]

/-! ### Claims about the death conditions -/

theorem control_returns (m : MathFns) (track : Track) (c : Car)
    (hlen : c.sensors.length = 9)
    (hi : c.brain.i ≤ 11) (ho : 2 ≤ c.brain.o)
    (hw : c.brain.genomeLength ≤ c.brain.weights.length) :
    ∃ o0 o1 brain,
      control m track c = score m track (drive m o0 o1 { c with brain := brain }) := by
  obtain ⟨out, brain, hp, hol, -⟩ := predict_some m c.brain (c.sensors ++ [c.throttle, c.steer])
    (by simp [hlen]; omega) hw
  obtain ⟨o0, h0⟩ : ∃ o0, out[0]? = some o0 := ⟨out[0], List.getElem?_eq_getElem (by omega)⟩
  obtain ⟨o1, h1⟩ : ∃ o1, out[1]? = some o1 := ⟨out[1], List.getElem?_eq_getElem (by omega)⟩
  refine ⟨o0, o1, brain, ?_⟩
  unfold control
  simp only [hp, h0, h1]

theorem step_returns (m : MathFns) (track : Track) (dt : ℚ) (c : Car) (rs : List ℚ)
    (halive : c.alive = true)
    (hrs : castRays m track c.pos c.angle rays 0 [] = .returned rs)
    (hlen : rs.length = 9)
    (hi : c.brain.i ≤ 11) (ho : 2 ≤ c.brain.o)
    (hw : c.brain.genomeLength ≤ c.brain.weights.length) :
    ∃ o0 o1 brain,
      Car.step m track dt c = score m track
        (drive m o0 o1 { collisionCheck { ageTick m dt c with sensors := rs } with
                           brain := brain }) := by
  have hbrain : (collisionCheck { ageTick m dt c with sensors := rs }).brain = c.brain := by
    unfold collisionCheck ageTick; dsimp only; split <;> split <;> rfl
  rw [step_eq_control m track dt c rs halive hrs]
  exact control_returns m track _ (by rw [collisionCheck_sensors]; exact hlen)
    (by rw [hbrain]; exact hi) (by rw [hbrain]; exact ho) (by rw [hbrain]; exact hw)

theorem score_returns (m : MathFns) (track : Track) (c : Car) (hcp : track.checkpoints ≠ []) :
    ∃ nextCp, track.checkpoints[(c.checkpointIndex + 1) % track.checkpoints.length]?
        = some nextCp ∧
      score m track c = .returned
        { c with
          checkpointIndex :=
            if m.hypot (nextCp.x - c.pos.x) (nextCp.y - c.pos.y) < 40
            then c.checkpointIndex + 1 else c.checkpointIndex,
          age := if m.hypot (nextCp.x - c.pos.x) (nextCp.y - c.pos.y) < 40 then 0 else c.age,
          fitness :=
            (((if m.hypot (nextCp.x - c.pos.x) (nextCp.y - c.pos.y) < 40
              then c.checkpointIndex + 1 else c.checkpointIndex : Nat) : ℚ))
              + (1 - m.hypot (nextCp.x - c.pos.x) (nextCp.y - c.pos.y) / 200),
          alive :=
            if (if m.hypot (nextCp.x - c.pos.x) (nextCp.y - c.pos.y) < 40 then 0 else c.age) > 100
            then false else c.alive } := by
  have hpos : 0 < track.checkpoints.length := List.length_pos.2 hcp
  have hlt := Nat.mod_lt (c.checkpointIndex + 1) hpos
  refine ⟨_, List.getElem?_eq_getElem hlt, ?_⟩
  unfold score
  simp only [List.getElem?_eq_getElem hlt]
  unfold capture
  split <;> split <;> simp_all

/-- C9: the three death conditions. For a living car with a brain that can be
evaluated on 11 inputs, on a track with non-empty walls and at least one
checkpoint, `step` returns a car `c2` whose sensors are the 9 readings cast from
the pre-tick pose, whose age is 0 if the next checkpoint was captured (within
40 of the new position) and `age + dt` otherwise, and `c2.alive = false` exactly
when (a) `age + dt > 20` and the pre-tick speed is below 1.5, or (b) a reading
is below 0.05, or (c) that age exceeds 100; a car still alive has age at most
100 and every reading at least 0.05. -/
theorem step_death_conditions (m : MathFns) (track : Track) (dt : ℚ) (c : Car)
    (halive : c.alive = true)
    (hin : track.innerWall ≠ []) (hout : track.outerWall ≠ [])
    (hcp : track.checkpoints ≠ [])
    (hi : c.brain.i ≤ 11) (ho : 2 ≤ c.brain.o)
    (hw : c.brain.genomeLength ≤ c.brain.weights.length) :
    ∃ c2 nextCp,
      Car.step m track dt c = .returned c2 ∧
      castRays m track c.pos c.angle rays 0 [] = .returned c2.sensors ∧
      c2.sensors.length = 9 ∧
      track.checkpoints[(c.checkpointIndex + 1) % track.checkpoints.length]? = some nextCp ∧
      c2.age = (if m.hypot (nextCp.x - c2.pos.x) (nextCp.y - c2.pos.y) < 40
                then 0 else c.age + dt) ∧
      (c2.alive = false ↔
        (c.age + dt > 20 ∧ m.hypot c.vel.x c.vel.y < 3 / 2) ∨
        (∃ r ∈ c2.sensors, r < 1 / 20) ∨
        c2.age > 100) ∧
      (c2.alive = true → c2.age ≤ 100 ∧ ∀ r ∈ c2.sensors, 1 / 20 ≤ r) := by
  obtain ⟨rs, hrs, hlen, -⟩ :=
    castRays_bounds m track c.pos c.angle hin hout rays 0 [] (by simp)
  have hlen9 : rs.length = 9 := by simpa [rays] using hlen
  obtain ⟨o0, o1, brain, hstep⟩ := step_returns m track dt c rs halive hrs hlen9 hi ho hw
  have hcidx : (drive m o0 o1 { collisionCheck { ageTick m dt c with sensors := rs } with
      brain := brain }).checkpointIndex = c.checkpointIndex := by
    unfold drive collisionCheck ageTick; dsimp only; split <;> split <;> rfl
  have hage : (drive m o0 o1 { collisionCheck { ageTick m dt c with sensors := rs } with
      brain := brain }).age = c.age + dt := by
    unfold drive collisionCheck ageTick; dsimp only; split <;> split <;> rfl
  have hsens : (drive m o0 o1 { collisionCheck { ageTick m dt c with sensors := rs } with
      brain := brain }).sensors = rs := by
    unfold drive collisionCheck ageTick; dsimp only; split <;> split <;> rfl
  have halv : (drive m o0 o1 { collisionCheck { ageTick m dt c with sensors := rs } with
      brain := brain }).alive = false ↔
      (c.age + dt > 20 ∧ m.hypot c.vel.x c.vel.y < 3 / 2) ∨ (∃ r ∈ rs, r < 1 / 20) := by
    unfold drive collisionCheck ageTick
    dsimp only
    split <;> split <;> simp_all
  generalize drive m o0 o1 { collisionCheck { ageTick m dt c with sensors := rs } with
      brain := brain } = d at hstep hcidx hage hsens halv
  obtain ⟨nextCp, hnext, hscore⟩ := score_returns m track d hcp
  rw [hcidx] at hnext
  rw [hscore] at hstep
  refine ⟨_, nextCp, hstep, ?_, ?_, hnext, ?_, ?_, ?_⟩
  · show castRays m track c.pos c.angle rays 0 [] = .returned d.sensors
    rw [hsens]; exact hrs
  · show d.sensors.length = 9
    rw [hsens]; exact hlen9
  · show (if m.hypot (nextCp.x - d.pos.x) (nextCp.y - d.pos.y) < 40 then 0 else d.age)
      = (if m.hypot (nextCp.x - d.pos.x) (nextCp.y - d.pos.y) < 40 then 0 else c.age + dt)
    rw [hage]
  · show ((if (if m.hypot (nextCp.x - d.pos.x) (nextCp.y - d.pos.y) < 40 then 0 else d.age) > 100
        then false else d.alive) = false) ↔
      (c.age + dt > 20 ∧ m.hypot c.vel.x c.vel.y < 3 / 2) ∨
      (∃ r ∈ d.sensors, r < 1 / 20) ∨
      (if m.hypot (nextCp.x - d.pos.x) (nextCp.y - d.pos.y) < 40 then 0 else d.age) > 100
    rw [hsens]
    by_cases h100 :
        (if m.hypot (nextCp.x - d.pos.x) (nextCp.y - d.pos.y) < 40 then 0 else d.age) > 100
    · rw [if_pos h100]
      exact ⟨fun _ => Or.inr (Or.inr h100), fun _ => rfl⟩
    · rw [if_neg h100, halv]
      simp only [h100, or_false]
  · show ((if (if m.hypot (nextCp.x - d.pos.x) (nextCp.y - d.pos.y) < 40 then 0 else d.age) > 100
        then false else d.alive) = true) →
      (if m.hypot (nextCp.x - d.pos.x) (nextCp.y - d.pos.y) < 40 then 0 else d.age) ≤ 100 ∧
      ∀ r ∈ d.sensors, 1 / 20 ≤ r
    rw [hsens]
    by_cases h100 :
        (if m.hypot (nextCp.x - d.pos.x) (nextCp.y - d.pos.y) < 40 then 0 else d.age) > 100
    · rw [if_pos h100]; intro h; exact absurd h (by simp)
    · rw [if_neg h100]
      intro htrue
      have hnf : ¬ ((c.age + dt > 20 ∧ m.hypot c.vel.x c.vel.y < 3 / 2) ∨
          (∃ r ∈ rs, r < 1 / 20)) := by
        rw [← halv, htrue]; simp
      refine ⟨not_lt.1 h100, ?_⟩
      intro r hr
      by_contra hlt
      exact hnf (Or.inr ⟨r, hr, not_le.1 hlt⟩)

/-- C9 witness: a new car at the start of the square track. -/
theorem step_death_conditions_witness :
    ∃ c2 nextCp,
      Car.step demoMath demoTrack (1 / 2) demoLiveCar = .returned c2 ∧
      castRays demoMath demoTrack demoLiveCar.pos demoLiveCar.angle rays 0 []
        = .returned c2.sensors ∧
      c2.sensors.length = 9 ∧
      demoTrack.checkpoints[(demoLiveCar.checkpointIndex + 1) % demoTrack.checkpoints.length]?
        = some nextCp ∧
      c2.age = (if demoMath.hypot (nextCp.x - c2.pos.x) (nextCp.y - c2.pos.y) < 40
                then 0 else demoLiveCar.age + 1 / 2) ∧
      (c2.alive = false ↔
        (demoLiveCar.age + 1 / 2 > 20 ∧
          demoMath.hypot demoLiveCar.vel.x demoLiveCar.vel.y < 3 / 2) ∨
        (∃ r ∈ c2.sensors, r < 1 / 20) ∨
        c2.age > 100) ∧
      (c2.alive = true → c2.age ≤ 100 ∧ ∀ r ∈ c2.sensors, 1 / 20 ≤ r) :=
  step_death_conditions demoMath demoTrack (1 / 2) demoLiveCar rfl (by decide) (by decide)
    (by decide) (by decide) (by decide)
    (demoBrain_genomeLength 0)

/-! ### The genome length invariant -/

theorem Brain.Standard.of_same {b b2 : Brain} (hs : b.SameGenome b2) (h : b.Standard) :
    b2.Standard := by
  obtain ⟨h1, h2, h3, h4⟩ := hs
  obtain ⟨g1, g2, g3, g4⟩ := h
  exact ⟨h1.trans g1, h2.trans g2, h3.trans g3, by rw [h4]; exact g4⟩

theorem fresh_standard (rng : Rng) (k : Nat) : (Brain.fresh rng k).1.Standard := by
  refine ⟨rfl, rfl, rfl, ?_⟩
  show (drawWeights rng ((11 + 1) * 12 + (12 + 1) * 2) [] k).1.length = 170
  rw [drawWeights_length]
  rfl

theorem initLoop_mem (track : Track) (rng : Rng) :
    ∀ (n : Nat) (pop : List Car) (k : Nat), ∀ c ∈ (initLoop track rng n pop k).1,
      c ∈ pop ∨ ∃ k2, c = Car.new track (Brain.fresh rng k2).1 0 := by
  intro n
  induction n with
  | zero => intro pop k c hc; exact Or.inl hc
  | succ n ih =>
    intro pop k c hc
    rw [initLoop] at hc
    rcases ih _ _ c hc with h | h
    · rcases List.mem_append.1 h with h | h
      · exact Or.inl h
      · exact Or.inr ⟨k, List.mem_singleton.1 h⟩
    · exact Or.inr h

theorem predict_sameGenome (m : MathFns) (b : Brain) (inputs out : List ℚ) (b2 : Brain)
    (h : b.predict m inputs = some (out, b2)) : b.SameGenome b2 := by
  unfold Brain.predict at h
  split at h
  · split at h
    · simp only [Option.some.injEq, Prod.mk.injEq] at h
      obtain ⟨-, rfl⟩ := h
      exact ⟨rfl, rfl, rfl, rfl⟩
    · simp at h
  · simp at h

theorem score_brain (m : MathFns) (track : Track) (c : Car) :
    (score m track c).state.brain = c.brain := by
  unfold score
  dsimp only
  split
  · rfl
  · unfold capture
    simp only [Outcome.state]
    split <;> split <;> rfl

theorem control_sameGenome (m : MathFns) (track : Track) (c : Car) :
    c.brain.SameGenome (control m track c).state.brain := by
  unfold control
  dsimp only
  split
  · exact ⟨rfl, rfl, rfl, rfl⟩
  · rename_i out brain hp
    have hs := predict_sameGenome m _ _ _ _ hp
    split
    · rw [score_brain]; exact hs
    · exact hs

theorem step_sameGenome (m : MathFns) (track : Track) (dt : ℚ) (c : Car) :
    c.brain.SameGenome (Car.step m track dt c).state.brain := by
  have hage : (ageTick m dt c).brain = c.brain := by
    unfold ageTick; dsimp only; split <;> rfl
  unfold Car.step
  split
  · exact ⟨rfl, rfl, rfl, rfl⟩
  · dsimp only
    split
    · simp only [Outcome.state, hage]; exact ⟨rfl, rfl, rfl, rfl⟩
    · rename_i readings _
      have hb : (collisionCheck { ageTick m dt c with sensors := readings }).brain = c.brain := by
        unfold collisionCheck; split <;> exact hage
      have := control_sameGenome m track (collisionCheck { ageTick m dt c with sensors := readings })
      rw [hb] at this
      exact this

theorem child_standard (track : Track) (rng : Rng) (rate : ℚ) (population : List Car)
    (generation : Nat) (hpop : ∀ p ∈ population, p.brain.Standard) (c : Car)
    (hc : IsChildOf track rng rate population generation c) : c.brain.Standard := by
  obtain ⟨p1, p2, r, k1, k2, h1, h2, rfl⟩ := hc
  obtain ⟨f1, f2, f3, -⟩ := fresh_standard rng k2
  refine ⟨f1, f2, f3, ?_⟩
  show (mutate rng rate (crossover r p1.brain.getGenes p2.brain.getGenes) k1).1.length = 170
  rw [mutate_length, crossover, crossoverAt_length]
  · exact (hpop p1 h1).2.2.2
  · exact (hpop p1 h1).2.2.2.trans (hpop p2 h2).2.2.2.symm

theorem evolve_standard (m : MathFns) (track : Track) (rng : Rng) (rate : ℚ) (s : Sim)
    (hv : rng.Valid) (hpop : ∀ p ∈ s.population, p.brain.Standard) :
    ∀ c ∈ (evolve m track rng rate s).state.population, c.brain.Standard := by
  have hsorted : ∀ p ∈ sortByFitness s.population, p.brain.Standard :=
    fun p hp => hpop p ((sortByFitness_perm s.population).mem_iff.1 hp)
  by_cases h2 : 2 ≤ s.population.length
  · obtain ⟨e0, e1, rest, children, k, hs, hev, hch, -⟩ :=
      evolve_returns m track rng rate s hv h2
    rw [hev]
    intro c hc
    simp only [Outcome.state, List.mem_map] at hc
    obtain ⟨c0, hc0, rfl⟩ := hc
    show c0.brain.Standard
    rcases List.mem_append.1 hc0 with hel | hchild
    · have he0 : e0.brain.Standard := hsorted e0 (by rw [hs]; simp)
      have he1 : e1.brain.Standard := hsorted e1 (by rw [hs]; simp)
      simp only [List.mem_cons, List.mem_singleton, List.not_mem_nil, or_false] at hel
      rcases hel with rfl | rfl
      · exact he0
      · exact he1
    · exact child_standard track rng rate _ _ hsorted c0 (hch c0 hchild)
  · have hl : (sortByFitness s.population).length = s.population.length :=
      (sortByFitness_perm s.population).length_eq
    have hstate : (evolve m track rng rate s).state.population = sortByFitness s.population := by
      unfold evolve
      match hs : sortByFitness s.population with
      | [] => rfl
      | [_] => rfl
      | _ :: _ :: _ => rw [hs] at hl; simp at hl; omega
    rw [hstate]
    exact hsorted

/-- C10: the genome length invariant. In every state reached from `init` by
steps of cars and `evolve` events, for any draws in `[0,1)` and any mutation
rates, every brain of the population has `weights.length` equal to
`(i+1)*h + (h+1)*o`, and this number is 170. -/
theorem genome_length_invariant (m : MathFns) (track : Track) (rng : Rng) (s : Sim)
    (hv : rng.Valid) (hr : Reachable m track rng s) :
    ∀ c ∈ s.population,
      c.brain.weights.length = (c.brain.i + 1) * c.brain.h + (c.brain.h + 1) * c.brain.o ∧
      (c.brain.i + 1) * c.brain.h + (c.brain.h + 1) * c.brain.o = 170 := by
  have key : ∀ c ∈ s.population, c.brain.Standard := by
    induction hr with
    | init s0 =>
      intro c hc
      rcases initLoop_mem track rng _ _ _ c hc with h | ⟨k2, rfl⟩
      · simp at h
      · exact fresh_standard rng k2
    | step s0 dt i c0 _ hget ih =>
      intro c hc
      rcases List.mem_or_eq_of_mem_set hc with h | rfl
      · exact ih c h
      · exact (ih c0 (List.mem_iff_getElem?.2 ⟨i, hget⟩)).of_same (step_sameGenome m track dt c0)
    | evolve s0 rate _ ih => exact evolve_standard m track rng rate s0 hv ih
  intro c hc
  obtain ⟨h1, h2, h3, h4⟩ := key c hc
  rw [h1, h2, h3, h4]
  exact ⟨rfl, rfl⟩

/-- C10 witness: the population after `init` and one `evolve` of `demoSim`,
with the draws of `demoRng`. -/
theorem genome_length_invariant_witness :
    demoRng.Valid ∧
    ∀ c ∈ (evolve demoMath demoTrack demoRng (1 / 10)
            (init demoTrack demoRng demoSim)).state.population,
      c.brain.weights.length = (c.brain.i + 1) * c.brain.h + (c.brain.h + 1) * c.brain.o ∧
      (c.brain.i + 1) * c.brain.h + (c.brain.h + 1) * c.brain.o = 170 :=
  ⟨demoRng_valid,
   genome_length_invariant demoMath demoTrack demoRng _ demoRng_valid
    (Reachable.evolve _ (1 / 10) (Reachable.init demoSim))⟩

/-! ### The generation fields after `init` and `evolve` -/

theorem init_generation_zero (track : Track) (rng : Rng) (s : Sim) :
    (init track rng s).generation = 0 ∧
    ∀ c ∈ (init track rng s).population, c.generation = 0 := by
  refine ⟨rfl, ?_⟩
  intro c hc
  rcases initLoop_mem track rng _ _ _ c hc with h | ⟨k2, rfl⟩
  · simp at h
  · rfl

theorem evolve_generation_fields (m : MathFns) (track : Track) (rng : Rng) (rate : ℚ) (s : Sim)
    (hv : rng.Valid) (hpop : 2 ≤ s.population.length) :
    ∃ s2, evolve m track rng rate s = .returned s2 ∧
      s2.generation = s.generation + 1 ∧
      s2.population.map (fun c => c.generation)
        = s.generation :: s.generation ::
            List.replicate (s2.population.length - 2) (s.generation + 1) := by
  obtain ⟨e0, e1, rest, children, k, -, hev, hch, -⟩ :=
    evolve_returns m track rng rate s hv hpop
  refine ⟨_, hev, rfl, ?_⟩
  have hgen : ∀ c ∈ children, c.generation = s.generation + 1 := by
    intro c hc
    obtain ⟨p1, p2, r, k1, k2, -, -, rfl⟩ := hch c hc
    rfl
  have hmap : children.map (fun c => (Car.reset m track c).generation)
      = List.replicate children.length (s.generation + 1) := by
    rw [List.eq_replicate_iff]
    refine ⟨by simp, ?_⟩
    intro g hg
    obtain ⟨c, hc, rfl⟩ := List.mem_map.1 hg
    exact hgen c hc
  simp only [List.map_append, List.map_map, List.map_cons, List.map_nil, List.length_append,
    List.length_cons, List.length_nil, List.length_map, Function.comp_def]
  rw [hmap]
  simp [Car.reset, Car.new]

/-! ### Claims about the `Brain` constructor and `mutate` -/

/-- C11 counterexample: `new Brain(11, 12, 2, [1, 2, 3])` returns a brain that
holds the 3-element vector, although the shape 11-12-2 asks for 170 weights. -/
theorem brain_wrong_length_counterexample :
    (Brain.ofWeights 11 12 2 [1, 2, 3]).weights = [1, 2, 3] ∧
    (Brain.ofWeights 11 12 2 [1, 2, 3]).weights.length
      ≠ (Brain.ofWeights 11 12 2 [1, 2, 3]).genomeLength := by
  decide

/-- C11, as amended: constructing a `Brain` from a weight vector of any length
returns a brain with the given sizes that holds exactly that vector, neither
truncated nor padded, and `setGenes` stores any vector likewise; the length is
not compared with `(i+1)*h + (h+1)*o`. -/
theorem brain_keeps_any_vector (i h o : Nat) (w : List ℚ) (b : Brain) :
    (Brain.ofWeights i h o w).weights = w ∧
    (Brain.ofWeights i h o w).i = i ∧
    (Brain.ofWeights i h o w).h = h ∧
    (Brain.ofWeights i h o w).o = o ∧
    (b.setGenes w).weights = w ∧
    (b.setGenes w).genomeLength = b.genomeLength :=
  ⟨rfl, rfl, rfl, rfl, rfl, rfl⟩

/-- C13 counterexample: with every draw of `Math.random()` equal to 0 the gene 0
is selected for mutation and becomes `-1/2`, not `0 + rand()*2 = -2`. -/
theorem mutate_scale_counterexample :
    ¬ ∀ (rng : Rng) (rate g : ℚ) (gs : List ℚ) (k : Nat), rng k < rate →
        (mutate rng rate (g :: gs) k).1.head? = some (g + rand (rng (k + 1)) * 2) := by
  intro h
  have := h (fun _ => 0) (1 / 10) 0 [] 0 (by norm_num)
  norm_num [mutate, rand] at this

/-- C13, as amended: for draws in `[0,1)`, an initial weight built from the draw
`r` is `rand(r)*2` and lies in `[-2, 2)`; a gene `g` selected for mutation
(its first draw is below the rate) becomes `g + rand(r)*0.5` for its second
draw `r`, an offset in `[-1/2, 1/2)`; a gene that is not selected is unchanged. -/
theorem mutate_offset_scale (rng : Rng) (rate g : ℚ) (gs : List ℚ) (k : Nat)
    (hv : rng.Valid) :
    (drawWeights rng 1 [] k).1 = [rand (rng k) * 2] ∧
    -2 ≤ rand (rng k) * 2 ∧ rand (rng k) * 2 < 2 ∧
    (rng k < rate →
      (mutate rng rate (g :: gs) k).1.head? = some (g + rand (rng (k + 1)) * (1 / 2))) ∧
    -(1 / 2) ≤ rand (rng (k + 1)) * (1 / 2) ∧ rand (rng (k + 1)) * (1 / 2) < 1 / 2 ∧
    (¬ rng k < rate → (mutate rng rate (g :: gs) k).1.head? = some g) := by
  obtain ⟨h0, h1⟩ := hv k
  obtain ⟨g0, g1⟩ := hv (k + 1)
  refine ⟨rfl, ?_, ?_, ?_, ?_, ?_, ?_⟩
  · unfold rand; linarith
  · unfold rand; linarith
  · intro hlt
    rw [mutate, if_pos hlt]
    rfl
  · unfold rand; linarith
  · unfold rand; linarith
  · intro hge
    rw [mutate, if_neg hge]
    rfl

/-- C13 witness: the stream whose every draw is one half. -/
theorem mutate_offset_scale_witness :
    demoRng.Valid ∧
    (drawWeights demoRng 1 [] 0).1 = [rand (demoRng 0) * 2] ∧
    -2 ≤ rand (demoRng 0) * 2 ∧ rand (demoRng 0) * 2 < 2 ∧
    (demoRng 0 < 3 / 4 →
      (mutate demoRng (3 / 4) (7 :: []) 0).1.head? = some (7 + rand (demoRng (0 + 1)) * (1 / 2))) ∧
    -(1 / 2) ≤ rand (demoRng (0 + 1)) * (1 / 2) ∧ rand (demoRng (0 + 1)) * (1 / 2) < 1 / 2 ∧
    (¬ demoRng 0 < 3 / 4 → (mutate demoRng (3 / 4) (7 :: []) 0).1.head? = some 7) :=
  ⟨demoRng_valid, mutate_offset_scale demoRng (3 / 4) 7 [] 0 demoRng_valid⟩

/-! ### Claims about parent selection and small populations -/

/-- C16: for a population length `n ≥ 2` and a draw `0 ≤ r < 1`, the parent
index `Math.floor(r*n/2)` satisfies `2*index < n` (so it is a valid index in the
top half), and every index `i` with `2*i < n` is the parent index of some draw. -/
theorem parentIdx_top_half (n : Nat) (r : ℚ) (hn : 2 ≤ n) (h0 : 0 ≤ r) (h1 : r < 1) :
    0 ≤ parentIdx r n ∧ 2 * parentIdx r n < n ∧ parentIdx r n < n ∧
    ∀ i, 2 * i < n → ∃ r2 : ℚ, 0 ≤ r2 ∧ r2 < 1 ∧ parentIdx r2 n = i := by
  have hq : (0 : ℚ) < (n : ℚ) := by exact_mod_cast (by omega : 0 < n)
  have hnn : 0 ≤ r * (n : ℚ) / 2 := by positivity
  have hfl : ((parentIdx r n : Nat) : ℚ) ≤ r * (n : ℚ) / 2 := by
    unfold parentIdx floorIdx
    exact Nat.floor_le hnn
  have h2 : 2 * parentIdx r n < n := by
    have : (2 : ℚ) * (parentIdx r n : ℚ) < (n : ℚ) := by nlinarith
    exact_mod_cast this
  refine ⟨Nat.zero_le _, h2, by omega, ?_⟩
  intro i hi
  have hiq : (2 : ℚ) * (i : ℚ) < (n : ℚ) := by exact_mod_cast hi
  refine ⟨2 * (i : ℚ) / (n : ℚ), by positivity, ?_, ?_⟩
  · rw [div_lt_one hq]; exact hiq
  · unfold parentIdx floorIdx
    have : 2 * (i : ℚ) / (n : ℚ) * (n : ℚ) / 2 = (i : ℚ) := by
      field_simp
    rw [this]
    exact Nat.floor_natCast i

/-- C16 witness: three cars and the draw 1/2 give the parent index 0. -/
theorem parentIdx_top_half_witness :
    (2 ≤ 3 ∧ (0 : ℚ) ≤ 1 / 2 ∧ (1 / 2 : ℚ) < 1) ∧
    (0 ≤ parentIdx (1 / 2) 3 ∧ 2 * parentIdx (1 / 2) 3 < 3 ∧ parentIdx (1 / 2) 3 < 3 ∧
      ∀ i, 2 * i < 3 → ∃ r2 : ℚ, 0 ≤ r2 ∧ r2 < 1 ∧ parentIdx r2 3 = i) :=
  ⟨⟨by norm_num, by norm_num, by norm_num⟩,
   parentIdx_top_half 3 (1 / 2) (by norm_num) (by norm_num) (by norm_num)⟩

/-- C18 counterexample: on a population of one car `evolve` stops with the
`TypeError` of reading `population[1].brain`; by then `population[0]` has been
read (`bestCar` holds it). -/
theorem evolve_one_car_counterexample :
    (evolve demoMath demoTrack demoRng (1 / 10) oneCarSim).error? = some JsError.typeError ∧
    (evolve demoMath demoTrack demoRng (1 / 10) oneCarSim).state.bestCar
      = some (demoCar 1 (3 / 2)) := by
  decide!

/-- C18, as amended: on a population of 0 or 1 cars `evolve` does not return;
it stops with a `TypeError` (the read of `population[0].brain` or of
`population[1].brain`), leaves the population, the generation index and the
random cursor as they were, and has set `bestCar` to `population[0]`. -/
theorem evolve_small_population (m : MathFns) (track : Track) (rng : Rng) (rate : ℚ) (s : Sim)
    (h : s.population.length < 2) :
    evolve m track rng rate s = .stopped .typeError { s with bestCar := s.population[0]? } := by
  unfold evolve sortByFitness
  match hp : s.population with
  | [] => rfl
  | [c] => rfl
  | _ :: _ :: _ => simp only [hp, List.length_cons] at h; omega

/-- C18 witness: the population of one car. -/
theorem evolve_small_population_witness :
    oneCarSim.population.length < 2 ∧
    evolve demoMath demoTrack demoRng (1 / 10) oneCarSim
      = .stopped .typeError { oneCarSim with bestCar := oneCarSim.population[0]? } :=
  ⟨by decide, evolve_small_population demoMath demoTrack demoRng (1 / 10) oneCarSim (by decide)⟩

/-! ### The controls, the physics and the checkpoint update of `step` -/

theorem sensed_fields (m : MathFns) (dt : ℚ) (c : Car) (rs : List ℚ) :
    (collisionCheck { ageTick m dt c with sensors := rs }).pos = c.pos ∧
    (collisionCheck { ageTick m dt c with sensors := rs }).vel = c.vel ∧
    (collisionCheck { ageTick m dt c with sensors := rs }).angle = c.angle ∧
    (collisionCheck { ageTick m dt c with sensors := rs }).age = c.age + dt ∧
    (collisionCheck { ageTick m dt c with sensors := rs }).checkpointIndex = c.checkpointIndex ∧
    (collisionCheck { ageTick m dt c with sensors := rs }).sensors = rs ∧
    (collisionCheck { ageTick m dt c with sensors := rs }).throttle = c.throttle ∧
    (collisionCheck { ageTick m dt c with sensors := rs }).steer = c.steer ∧
    (collisionCheck { ageTick m dt c with sensors := rs }).brain = c.brain := by
  unfold collisionCheck ageTick
  dsimp only
  split <;> split <;> exact ⟨rfl, rfl, rfl, rfl, rfl, rfl, rfl, rfl, rfl⟩

theorem control_eq_score (m : MathFns) (track : Track) (c : Car) (out : List ℚ) (brain : Brain)
    (o0 o1 : ℚ)
    (hp : c.brain.predict m (c.sensors ++ [c.throttle, c.steer]) = some (out, brain))
    (h0 : out[0]? = some o0) (h1 : out[1]? = some o1) :
    control m track c = score m track (drive m o0 o1 { c with brain := brain }) := by
  unfold control
  simp only [hp, h0, h1]

theorem step_explicit (m : MathFns) (track : Track) (dt : ℚ) (c : Car)
    (halive : c.alive = true)
    (hin : track.innerWall ≠ []) (hout : track.outerWall ≠ [])
    (hi : c.brain.i ≤ 11) (ho : 2 ≤ c.brain.o)
    (hw : c.brain.genomeLength ≤ c.brain.weights.length) :
    ∃ rs out brain o0 o1 base,
      castRays m track c.pos c.angle rays 0 [] = .returned rs ∧
      c.brain.predict m (rs ++ [c.throttle, c.steer]) = some (out, brain) ∧
      out[0]? = some o0 ∧ out[1]? = some o1 ∧
      base.pos = c.pos ∧ base.vel = c.vel ∧ base.angle = c.angle ∧
      base.age = c.age + dt ∧ base.checkpointIndex = c.checkpointIndex ∧
      Car.step m track dt c = score m track (drive m o0 o1 base) := by
  obtain ⟨rs, hrs, hlen, -⟩ :=
    castRays_bounds m track c.pos c.angle hin hout rays 0 [] (by simp)
  have hlen9 : rs.length = 9 := by simpa [rays] using hlen
  obtain ⟨hpos, hvel, hang, hage, hcp, hsens, hthr, hst, hbr⟩ := sensed_fields m dt c rs
  have hstep := step_eq_control m track dt c rs halive hrs
  generalize collisionCheck { ageTick m dt c with sensors := rs } = X at *
  obtain ⟨out, brain, hp, hol, -⟩ := predict_some m X.brain (X.sensors ++ [X.throttle, X.steer])
    (by rw [hbr, hsens]; simp [hlen9]; omega) (by rw [hbr]; exact hw)
  rw [hbr] at hol
  obtain ⟨o0, h0⟩ : ∃ o0, out[0]? = some o0 := ⟨out[0], List.getElem?_eq_getElem (by omega)⟩
  obtain ⟨o1, h1⟩ : ∃ o1, out[1]? = some o1 := ⟨out[1], List.getElem?_eq_getElem (by omega)⟩
  refine ⟨rs, out, brain, o0, o1, { X with brain := brain }, hrs, ?_, h0, h1,
    hpos, hvel, hang, hage, hcp, ?_⟩
  · rw [← hbr, ← hsens, ← hthr, ← hst]; exact hp
  · rw [hstep]; exact control_eq_score m track X out brain o0 o1 hp h0 h1

theorem drive_fields (m : MathFns) (o0 o1 : ℚ) (b : Car) :
    (drive m o0 o1 b).steer = clamp (o0 * 2 - 1) (-1) 1 ∧
    (drive m o0 o1 b).throttle = clamp o1 (1 / 5) 1 ∧
    (drive m o0 o1 b).angle
      = b.angle + (drive m o0 o1 b).steer * (1 / 10) * (m.hypot b.vel.x b.vel.y / 12) ∧
    (drive m o0 o1 b).vel.x
      = (b.vel.x + m.cos (drive m o0 o1 b).angle * (drive m o0 o1 b).throttle * (1 / 2))
          * (19 / 20) ∧
    (drive m o0 o1 b).vel.y
      = (b.vel.y + m.sin (drive m o0 o1 b).angle * (drive m o0 o1 b).throttle * (1 / 2))
          * (19 / 20) ∧
    (drive m o0 o1 b).pos.x = b.pos.x + (drive m o0 o1 b).vel.x ∧
    (drive m o0 o1 b).pos.y = b.pos.y + (drive m o0 o1 b).vel.y ∧
    (drive m o0 o1 b).age = b.age ∧
    (drive m o0 o1 b).checkpointIndex = b.checkpointIndex :=
  ⟨rfl, rfl, rfl, rfl, rfl, rfl, rfl, rfl, rfl⟩

theorem score_motion (m : MathFns) (track : Track) (d : Car) :
    (score m track d).state.pos = d.pos ∧ (score m track d).state.vel = d.vel ∧
    (score m track d).state.angle = d.angle ∧ (score m track d).state.steer = d.steer ∧
    (score m track d).state.throttle = d.throttle := by
  unfold score
  dsimp only
  split
  · exact ⟨rfl, rfl, rfl, rfl, rfl⟩
  · unfold capture
    simp only [Outcome.state]
    split <;> split <;> exact ⟨rfl, rfl, rfl, rfl, rfl⟩

theorem score_isReturned (m : MathFns) (track : Track) (d : Car)
    (hcp : track.checkpoints ≠ []) :
    ∃ c2, score m track d = .returned c2 := by
  obtain ⟨_, _, h⟩ := score_returns m track d hcp
  exact ⟨_, h⟩

theorem drive_motion_congr (m : MathFns) (o0 o1 : ℚ) (b b2 : Car)
    (hp : b2.pos = b.pos) (hv : b2.vel = b.vel) (ha : b2.angle = b.angle) :
    (drive m o0 o1 b2).angle = (drive m o0 o1 b).angle ∧
    (drive m o0 o1 b2).vel = (drive m o0 o1 b).vel ∧
    (drive m o0 o1 b2).pos = (drive m o0 o1 b).pos := by
  unfold drive
  simp only [hp, hv, ha, and_self]

/-- C12: evaluation at a new car whose brain has all weights 0, so that the
network output is `[0, 0]`: `step` returns, and it stores the steer `-1`, not
`out[0] = 0`; the stored throttle is `out[1]` clamped into `[0.2, 1]`, i.e. 0.2. -/
theorem step_steer_of_zero_output :
    (Car.step demoMath demoTrack (1 / 2) demoLiveCar).isReturned = true ∧
    (Car.step demoMath demoTrack (1 / 2) demoLiveCar).state.brain.lastOutput = some [0, 0] ∧
    (Car.step demoMath demoTrack (1 / 2) demoLiveCar).state.steer = -1 ∧
    (Car.step demoMath demoTrack (1 / 2) demoLiveCar).state.throttle = 1 / 5 := by
  decide!

/-- C14: the physics of one tick. For a living car on which `step` runs to its
end, with pre-tick heading, velocity `v` and position `p`, the car `c2` that
`step` returns has heading `th2 = th + steer*0.1*(hypot(v)/12)`, velocity
`v2 = 0.95*(v + 0.5*throttle*(cos th2, sin th2))` and position `p2 = p + v2`, for
the steer and throttle stored in this tick; and for every other `dt` the
returned heading, velocity and position are the same. -/
theorem step_physics (m : MathFns) (track : Track) (dt : ℚ) (c : Car)
    (halive : c.alive = true)
    (hin : track.innerWall ≠ []) (hout : track.outerWall ≠ [])
    (hcp : track.checkpoints ≠ [])
    (hi : c.brain.i ≤ 11) (ho : 2 ≤ c.brain.o)
    (hw : c.brain.genomeLength ≤ c.brain.weights.length) :
    ∃ c2, Car.step m track dt c = .returned c2 ∧
      c2.angle = c.angle + c2.steer * (1 / 10) * (m.hypot c.vel.x c.vel.y / 12) ∧
      c2.vel.x = (19 / 20) * (c.vel.x + (1 / 2) * c2.throttle * m.cos c2.angle) ∧
      c2.vel.y = (19 / 20) * (c.vel.y + (1 / 2) * c2.throttle * m.sin c2.angle) ∧
      c2.pos.x = c.pos.x + c2.vel.x ∧
      c2.pos.y = c.pos.y + c2.vel.y ∧
      ∀ dt2, ∃ c3, Car.step m track dt2 c = .returned c3 ∧
        c3.angle = c2.angle ∧ c3.vel = c2.vel ∧ c3.pos = c2.pos := by
  obtain ⟨rs, out, brain, o0, o1, base, hrs, hp, h0, h1, bpos, bvel, bang, -, -, hstep⟩ :=
    step_explicit m track dt c halive hin hout hi ho hw
  obtain ⟨c2, hc2⟩ := score_isReturned m track (drive m o0 o1 base) hcp
  obtain ⟨spos, svel, sang, sst, sthr⟩ := score_motion m track (drive m o0 o1 base)
  rw [hc2] at spos svel sang sst sthr
  simp only [Outcome.state] at spos svel sang sst sthr
  obtain ⟨-, -, dang, dvx, dvy, dpx, dpy, -, -⟩ := drive_fields m o0 o1 base
  simp only [← sst, ← sang, ← svel, ← spos, ← sthr, bpos, bvel, bang] at dang dvx dvy dpx dpy
  refine ⟨c2, by rw [hstep, hc2], dang, ?_, ?_, dpx, dpy, ?_⟩
  · rw [dvx]; ring
  · rw [dvy]; ring
  · intro dt2
    obtain ⟨rs2, out2, brain2, p0, p1, base2, hrs2, hp2, g0, g1, cpos, cvel, cang, -, -,
      hstep2⟩ := step_explicit m track dt2 c halive hin hout hi ho hw
    have ers : rs2 = rs := by
      rw [hrs] at hrs2; exact (Outcome.returned.inj hrs2).symm
    subst ers
    rw [hp] at hp2
    obtain ⟨eout, -⟩ := Prod.mk.inj (Option.some.inj hp2)
    subst eout
    rw [h0] at g0
    rw [h1] at g1
    obtain rfl := Option.some.inj g0
    obtain rfl := Option.some.inj g1
    obtain ⟨c3, hc3⟩ := score_isReturned m track (drive m o0 o1 base2) hcp
    obtain ⟨tpos, tvel, tang, -, -⟩ := score_motion m track (drive m o0 o1 base2)
    rw [hc3] at tpos tvel tang
    simp only [Outcome.state] at tpos tvel tang
    obtain ⟨eang, evel, epos⟩ := drive_motion_congr m o0 o1 base base2
      (cpos.trans bpos.symm) (cvel.trans bvel.symm) (cang.trans bang.symm)
    refine ⟨c3, by rw [hstep2, hc3], ?_, ?_, ?_⟩
    · rw [tang, eang, ← sang]
    · rw [tvel, evel, ← svel]
    · rw [tpos, epos, ← spos]

/-- C14 witness: a new car at the start of the square track. -/
theorem step_physics_witness :
    ∃ c2, Car.step demoMath demoTrack (1 / 2) demoLiveCar = .returned c2 ∧
      c2.angle = demoLiveCar.angle
        + c2.steer * (1 / 10) * (demoMath.hypot demoLiveCar.vel.x demoLiveCar.vel.y / 12) ∧
      c2.vel.x = (19 / 20) * (demoLiveCar.vel.x + (1 / 2) * c2.throttle * demoMath.cos c2.angle) ∧
      c2.vel.y = (19 / 20) * (demoLiveCar.vel.y + (1 / 2) * c2.throttle * demoMath.sin c2.angle) ∧
      c2.pos.x = demoLiveCar.pos.x + c2.vel.x ∧
      c2.pos.y = demoLiveCar.pos.y + c2.vel.y ∧
      ∀ dt2, ∃ c3, Car.step demoMath demoTrack dt2 demoLiveCar = .returned c3 ∧
        c3.angle = c2.angle ∧ c3.vel = c2.vel ∧ c3.pos = c2.pos :=
  step_physics demoMath demoTrack (1 / 2) demoLiveCar rfl (by decide) (by decide)
    (by decide) (by decide) (by decide) (demoBrain_genomeLength 0)

/-- C15: checkpoint capture and fitness. For a living car on which `step` runs
to its end, on a track with at least one checkpoint, let `k` be the pre-tick
`checkpointIndex` and `d` the distance (`Math.hypot`) from the position after
the physics to `checkpoints[(k+1) % n]`. If `d < 40` the returned car has
`checkpointIndex = k+1` and `age = 0`, otherwise `checkpointIndex = k` and
`age = age + dt`; in both cases `fitness = checkpointIndex + (1 - d/200)` with
the new index, which is at least `k` and at most `k+1`. -/
theorem step_checkpoint_fitness (m : MathFns) (track : Track) (dt : ℚ) (c : Car)
    (halive : c.alive = true)
    (hin : track.innerWall ≠ []) (hout : track.outerWall ≠ [])
    (hcp : track.checkpoints ≠ [])
    (hi : c.brain.i ≤ 11) (ho : 2 ≤ c.brain.o)
    (hw : c.brain.genomeLength ≤ c.brain.weights.length) :
    ∃ c2 nextCp,
      Car.step m track dt c = .returned c2 ∧
      track.checkpoints[(c.checkpointIndex + 1) % track.checkpoints.length]? = some nextCp ∧
      (m.hypot (nextCp.x - c2.pos.x) (nextCp.y - c2.pos.y) < 40 →
        c2.checkpointIndex = c.checkpointIndex + 1 ∧ c2.age = 0) ∧
      (¬ m.hypot (nextCp.x - c2.pos.x) (nextCp.y - c2.pos.y) < 40 →
        c2.checkpointIndex = c.checkpointIndex ∧ c2.age = c.age + dt) ∧
      c2.fitness = (c2.checkpointIndex : ℚ)
        + (1 - m.hypot (nextCp.x - c2.pos.x) (nextCp.y - c2.pos.y) / 200) ∧
      c.checkpointIndex ≤ c2.checkpointIndex ∧
      c2.checkpointIndex ≤ c.checkpointIndex + 1 := by
  obtain ⟨rs, out, brain, o0, o1, base, -, -, -, -, -, -, -, bage, bcp, hstep⟩ :=
    step_explicit m track dt c halive hin hout hi ho hw
  obtain ⟨-, -, -, -, -, -, -, dage, dcp⟩ := drive_fields m o0 o1 base
  rw [bage] at dage
  rw [bcp] at dcp
  generalize drive m o0 o1 base = d at hstep dage dcp
  obtain ⟨nextCp, hnext, hscore⟩ := score_returns m track d hcp
  rw [dcp] at hnext
  rw [hscore] at hstep
  refine ⟨_, nextCp, hstep, hnext, ?_, ?_, ?_, ?_, ?_⟩
  · intro hlt
    show (if m.hypot (nextCp.x - d.pos.x) (nextCp.y - d.pos.y) < 40
            then d.checkpointIndex + 1 else d.checkpointIndex) = c.checkpointIndex + 1 ∧
         (if m.hypot (nextCp.x - d.pos.x) (nextCp.y - d.pos.y) < 40 then 0 else d.age) = 0
    have hlt2 : m.hypot (nextCp.x - d.pos.x) (nextCp.y - d.pos.y) < 40 := hlt
    rw [if_pos hlt2, if_pos hlt2, dcp]
    exact ⟨rfl, rfl⟩
  · intro hge
    show (if m.hypot (nextCp.x - d.pos.x) (nextCp.y - d.pos.y) < 40
            then d.checkpointIndex + 1 else d.checkpointIndex) = c.checkpointIndex ∧
         (if m.hypot (nextCp.x - d.pos.x) (nextCp.y - d.pos.y) < 40 then 0 else d.age)
            = c.age + dt
    have hge2 : ¬ m.hypot (nextCp.x - d.pos.x) (nextCp.y - d.pos.y) < 40 := hge
    rw [if_neg hge2, if_neg hge2, dcp, dage]
    exact ⟨rfl, rfl⟩
  · rfl
  · show c.checkpointIndex ≤ (if m.hypot (nextCp.x - d.pos.x) (nextCp.y - d.pos.y) < 40
            then d.checkpointIndex + 1 else d.checkpointIndex)
    rw [dcp]; split <;> omega
  · show (if m.hypot (nextCp.x - d.pos.x) (nextCp.y - d.pos.y) < 40
            then d.checkpointIndex + 1 else d.checkpointIndex) ≤ c.checkpointIndex + 1
    rw [dcp]; split <;> omega

/-- C15 witness: a new car at the start of the square track. -/
theorem step_checkpoint_fitness_witness :
    ∃ c2 nextCp,
      Car.step demoMath demoTrack (1 / 2) demoLiveCar = .returned c2 ∧
      demoTrack.checkpoints[(demoLiveCar.checkpointIndex + 1) % demoTrack.checkpoints.length]?
        = some nextCp ∧
      (demoMath.hypot (nextCp.x - c2.pos.x) (nextCp.y - c2.pos.y) < 40 →
        c2.checkpointIndex = demoLiveCar.checkpointIndex + 1 ∧ c2.age = 0) ∧
      (¬ demoMath.hypot (nextCp.x - c2.pos.x) (nextCp.y - c2.pos.y) < 40 →
        c2.checkpointIndex = demoLiveCar.checkpointIndex ∧ c2.age = demoLiveCar.age + 1 / 2) ∧
      c2.fitness = (c2.checkpointIndex : ℚ)
        + (1 - demoMath.hypot (nextCp.x - c2.pos.x) (nextCp.y - c2.pos.y) / 200) ∧
      demoLiveCar.checkpointIndex ≤ c2.checkpointIndex ∧
      c2.checkpointIndex ≤ demoLiveCar.checkpointIndex + 1 :=
  step_checkpoint_fitness demoMath demoTrack (1 / 2) demoLiveCar rfl (by decide) (by decide)
    (by decide) (by decide) (by decide) (demoBrain_genomeLength 0)

/-! ### `predict` in closed form -/

theorem weightedSum_closed (xs ws : List ℚ) :
    ∀ (n i wIdx : Nat) (sum : ℚ), i + n ≤ xs.length → wIdx + n ≤ ws.length →
      weightedSum xs ws n i wIdx sum
        = some (sum + Finset.sum (Finset.range n)
                  (fun j => xs.getD (i + j) 0 * ws.getD (wIdx + j) 0), wIdx + n) := by
  intro n
  induction n with
  | zero => intro i wIdx sum _ _; simp [weightedSum]
  | succ n ih =>
    intro i wIdx sum hx hw
    rw [weightedSum, List.getElem?_eq_getElem (by omega : i < xs.length),
      List.getElem?_eq_getElem (by omega : wIdx < ws.length)]
    simp only
    rw [ih (i + 1) (wIdx + 1) _ (by omega) (by omega), Finset.sum_range_succ']
    have hxi : xs.getD (i + 0) 0 = xs[i] := by
      rw [Nat.add_zero, List.getD_eq_getElem?_getD, List.getElem?_eq_getElem (by omega)]
      rfl
    have hwi : ws.getD (wIdx + 0) 0 = ws[wIdx] := by
      rw [Nat.add_zero, List.getD_eq_getElem?_getD, List.getElem?_eq_getElem (by omega)]
      rfl
    rw [hxi, hwi]
    have hsum : Finset.sum (Finset.range n)
          (fun j => xs.getD (i + 1 + j) 0 * ws.getD (wIdx + 1 + j) 0)
        = Finset.sum (Finset.range n)
          (fun j => xs.getD (i + (j + 1)) 0 * ws.getD (wIdx + (j + 1)) 0) := by
      apply Finset.sum_congr rfl
      intro j _
      rw [show i + 1 + j = i + (j + 1) by omega, show wIdx + 1 + j = wIdx + (j + 1) by omega]
    rw [hsum]
    simp only [Option.some.injEq, Prod.mk.injEq]
    exact ⟨by ring, by omega⟩

theorem unitOut_closed (m : MathFns) (xs ws : List ℚ) (n wIdx : Nat)
    (hx : n ≤ xs.length) (hw : wIdx + n + 1 ≤ ws.length) :
    unitOut m xs ws n wIdx = some (denseUnit m xs ws n wIdx, wIdx + n + 1) := by
  unfold unitOut denseUnit
  rw [weightedSum_closed xs ws n 0 wIdx 0 (by omega) (by omega)]
  simp only
  rw [List.getElem?_eq_getElem (by omega : wIdx + n < ws.length)]
  simp only [Nat.zero_add, zero_add]
  rw [List.getD_eq_getElem?_getD, List.getElem?_eq_getElem (by omega : wIdx + n < ws.length)]
  rfl

theorem layer_closed (m : MathFns) (xs ws : List ℚ) (n : Nat) (hx : n ≤ xs.length) :
    ∀ (units wIdx : Nat) (acc : List ℚ), wIdx + units * (n + 1) ≤ ws.length →
      layer m xs ws n units wIdx acc
        = some (acc ++ (List.range units).map
                  (fun u => denseUnit m xs ws n (wIdx + u * (n + 1))),
                wIdx + units * (n + 1)) := by
  intro units
  induction units with
  | zero => intro wIdx acc _; simp [layer]
  | succ units ih =>
    intro wIdx acc hw
    have hmul : (units + 1) * (n + 1) = units * (n + 1) + (n + 1) := Nat.succ_mul _ _
    rw [layer, unitOut_closed m xs ws n wIdx hx (by omega)]
    simp only
    rw [ih (wIdx + n + 1) _ (by omega), List.range_succ_eq_map]
    have hl : List.map (fun u => denseUnit m xs ws n (wIdx + n + 1 + u * (n + 1)))
          (List.range units)
        = List.map ((fun u => denseUnit m xs ws n (wIdx + u * (n + 1))) ∘ Nat.succ)
          (List.range units) := by
      apply List.map_congr_left
      intro u _
      simp only [Function.comp_apply]
      congr 1
      rw [Nat.succ_mul]
      omega
    simp only [List.map_cons, List.map_map, List.append_assoc, List.singleton_append,
      Nat.zero_mul, Nat.add_zero, Option.some.injEq, Prod.mk.injEq, hl, true_and]
    omega

theorem sumReads_eq (n wIdx : Nat) : sumReads n wIdx = (List.range' wIdx n, wIdx + n) := by
  induction n generalizing wIdx with
  | zero => rfl
  | succ n ih =>
    rw [sumReads, ih, List.range'_succ]
    simp only [Prod.mk.injEq, true_and]
    omega

theorem unitReads_eq (n wIdx : Nat) :
    unitReads n wIdx = (List.range' wIdx (n + 1), wIdx + n + 1) := by
  rw [unitReads, sumReads_eq, List.range'_1_concat]

theorem layerReads_eq (n units wIdx : Nat) :
    layerReads n units wIdx
      = (List.range' wIdx (units * (n + 1)), wIdx + units * (n + 1)) := by
  induction units generalizing wIdx with
  | zero => simp [layerReads]
  | succ units ih =>
    rw [layerReads, unitReads_eq, ih]
    have hmul : (units + 1) * (n + 1) = units * (n + 1) + (n + 1) := Nat.succ_mul _ _
    simp only [Prod.mk.injEq]
    rw [hmul, Nat.add_assoc wIdx n 1, List.range'_append_1]
    exact ⟨rfl, by omega⟩

theorem weightReads_eq (b : Brain) : b.weightReads = List.range b.genomeLength := by
  unfold Brain.weightReads Brain.genomeLength
  have key := List.range'_append_1 0 ((b.i + 1) * b.h) ((b.h + 1) * b.o)
  rw [Nat.zero_add, Nat.add_comm ((b.h + 1) * b.o)] at key
  simp only [layerReads_eq, List.range_eq_range', Nat.zero_add]
  rw [Nat.mul_comm b.h (b.i + 1), Nat.mul_comm b.o (b.h + 1)]
  exact key

/-- C19: `predict` is the two-layer dense network over the flat genome. For a
brain of sizes `(I, H, O)` with `(I+1)*H + (H+1)*O` weights `w` and an input
list `x` of length `I`, `predict` returns `O` values; hidden unit `h` is
`tanh(Σ_{i<I} x[i]*w[h*(I+1)+i] + w[h*(I+1)+I])` and output `o` is
`tanh(Σ_{h<H} hid[h]*w[(I+1)*H + o*(H+1) + h] + w[(I+1)*H + o*(H+1) + H])`;
the weight indices read are `0, 1, ..., w.length - 1`, each once and in this
order; `w` is unchanged; and when `tanh` takes its values in `[-1,1]`, so does
every output. -/
theorem predict_dense_network (m : MathFns) (b : Brain) (x : List ℚ)
    (hw : b.weights.length = (b.i + 1) * b.h + (b.h + 1) * b.o) (hx : x.length = b.i) :
    ∃ (out hid : List ℚ) (brain2 : Brain),
      b.predict m x = some (out, brain2) ∧
      out.length = b.o ∧ hid.length = b.h ∧
      (∀ h, h < b.h → hid[h]? = some (m.tanh
        (Finset.sum (Finset.range b.i)
            (fun i => x.getD i 0 * b.weights.getD (h * (b.i + 1) + i) 0)
          + b.weights.getD (h * (b.i + 1) + b.i) 0))) ∧
      (∀ o, o < b.o → out[o]? = some (m.tanh
        (Finset.sum (Finset.range b.h)
            (fun h => hid.getD h 0 * b.weights.getD ((b.i + 1) * b.h + o * (b.h + 1) + h) 0)
          + b.weights.getD ((b.i + 1) * b.h + o * (b.h + 1) + b.h) 0))) ∧
      b.weightReads = List.range b.weights.length ∧
      (∀ k ∈ b.weightReads, k < b.weights.length) ∧
      brain2.weights = b.weights ∧
      ((∀ v, -1 ≤ m.tanh v ∧ m.tanh v ≤ 1) → ∀ y ∈ out, -1 ≤ y ∧ y ≤ 1) := by
  have e1 : b.h * (b.i + 1) = (b.i + 1) * b.h := Nat.mul_comm _ _
  have e2 : b.o * (b.h + 1) = (b.h + 1) * b.o := Nat.mul_comm _ _
  obtain ⟨hid, hh⟩ : ∃ hid : List ℚ, hid
      = (List.range b.h).map (fun u => denseUnit m x b.weights b.i (0 + u * (b.i + 1))) :=
    ⟨_, rfl⟩
  have hhid := layer_closed m x b.weights b.i (by omega) b.h 0 [] (by omega)
  rw [List.nil_append, ← hh] at hhid
  have hhlen : hid.length = b.h := by rw [hh]; simp
  obtain ⟨out, ho⟩ : ∃ out : List ℚ, out
      = (List.range b.o).map
          (fun u => denseUnit m hid b.weights b.h (0 + b.h * (b.i + 1) + u * (b.h + 1))) :=
    ⟨_, rfl⟩
  have hout := layer_closed m hid b.weights b.h (by omega) b.o (0 + b.h * (b.i + 1)) []
    (by omega)
  rw [List.nil_append, ← ho] at hout
  have hreads : b.weightReads = List.range b.weights.length := by
    rw [weightReads_eq, Brain.genomeLength, hw]
  refine ⟨out, hid, Brain.mk b.i b.h b.o b.weights (some x) (some hid) (some out),
    ?_, ?_, hhlen, ?_, ?_, hreads, ?_, rfl, ?_⟩
  · unfold Brain.predict
    simp only [hhid, hout]
  · rw [ho]; simp
  · intro h hlt
    rw [hh, List.getElem?_map, List.getElem?_range hlt]
    simp only [Option.map_some', denseUnit, Nat.zero_add]
  · intro o hlt
    rw [ho, List.getElem?_map, List.getElem?_range hlt]
    simp only [Option.map_some', denseUnit, Nat.zero_add, e1]
  · intro k hk
    rw [hreads] at hk
    exact List.mem_range.1 hk
  · intro hb y hy
    rw [ho] at hy
    obtain ⟨u, -, rfl⟩ := List.mem_map.1 hy
    exact hb _

/-- C19 witness: the brain of shape 11-12-2 with all weights 1 on eleven inputs
equal to 1/2. -/
theorem predict_dense_network_witness :
    ((demoBrain 1).weights.length
        = ((demoBrain 1).i + 1) * (demoBrain 1).h + ((demoBrain 1).h + 1) * (demoBrain 1).o ∧
      (List.replicate 11 (1 / 2 : ℚ)).length = (demoBrain 1).i) ∧
    ∃ (out hid : List ℚ) (brain2 : Brain),
      (demoBrain 1).predict demoMath (List.replicate 11 (1 / 2)) = some (out, brain2) ∧
      out.length = (demoBrain 1).o ∧ hid.length = (demoBrain 1).h ∧
      (∀ h, h < (demoBrain 1).h → hid[h]? = some (demoMath.tanh
        (Finset.sum (Finset.range (demoBrain 1).i)
            (fun i => (List.replicate 11 (1 / 2 : ℚ)).getD i 0
              * (demoBrain 1).weights.getD (h * ((demoBrain 1).i + 1) + i) 0)
          + (demoBrain 1).weights.getD (h * ((demoBrain 1).i + 1) + (demoBrain 1).i) 0))) ∧
      (∀ o, o < (demoBrain 1).o → out[o]? = some (demoMath.tanh
        (Finset.sum (Finset.range (demoBrain 1).h)
            (fun h => hid.getD h 0 * (demoBrain 1).weights.getD
              (((demoBrain 1).i + 1) * (demoBrain 1).h + o * ((demoBrain 1).h + 1) + h) 0)
          + (demoBrain 1).weights.getD
              (((demoBrain 1).i + 1) * (demoBrain 1).h + o * ((demoBrain 1).h + 1)
                + (demoBrain 1).h) 0))) ∧
      (demoBrain 1).weightReads = List.range (demoBrain 1).weights.length ∧
      (∀ k ∈ (demoBrain 1).weightReads, k < (demoBrain 1).weights.length) ∧
      brain2.weights = (demoBrain 1).weights ∧
      ((∀ v, -1 ≤ demoMath.tanh v ∧ demoMath.tanh v ≤ 1) → ∀ y ∈ out, -1 ≤ y ∧ y ≤ 1) :=
  ⟨⟨List.length_replicate _ _, List.length_replicate _ _⟩,
   predict_dense_network demoMath (demoBrain 1) (List.replicate 11 (1 / 2))
    (List.length_replicate _ _) (List.length_replicate _ _)⟩

/-! ### The speed bound -/

theorem circleMath_normLike : circleMath.NormLike := by
  refine ⟨?_, ?_, ?_, ?_⟩
  · intro x y
    exact le_max_of_le_left (abs_nonneg x)
  · intro x y x2 y2
    show Max.max |x + x2| |y + y2| ≤ Max.max |x| |y| + Max.max |x2| |y2|
    apply max_le
    · exact (abs_add x x2).trans (add_le_add (le_max_left _ _) (le_max_left _ _))
    · exact (abs_add y y2).trans (add_le_add (le_max_right _ _) (le_max_right _ _))
  · intro s x y hs
    show Max.max |s * x| |s * y| = s * Max.max |x| |y|
    rw [abs_mul, abs_mul, abs_of_nonneg hs, mul_max_of_nonneg _ _ hs]
  · intro a
    show Max.max |(1 - a ^ 2) / (1 + a ^ 2)| |2 * a / (1 + a ^ 2)| ≤ 1
    have hpos : (0 : ℚ) < 1 + a ^ 2 := by positivity
    apply max_le
    · rw [abs_div, abs_of_pos hpos, div_le_one hpos, abs_le]
      constructor <;> nlinarith [sq_nonneg a]
    · rw [abs_div, abs_of_pos hpos, div_le_one hpos, abs_le]
      constructor <;> nlinarith [sq_nonneg (a - 1), sq_nonneg (a + 1)]

theorem clamp_bounds (v a b : ℚ) (hab : a ≤ b) : a ≤ clamp v a b ∧ clamp v a b ≤ b := by
  unfold clamp
  exact ⟨le_max_left _ _, max_le hab (min_le_left _ _)⟩

theorem drive_speed_bound (m : MathFns) (hm : m.NormLike) (o0 o1 : ℚ) (b : Car)
    (hs : m.hypot b.vel.x b.vel.y ≤ 19 / 2) :
    m.hypot (drive m o0 o1 b).vel.x (drive m o0 o1 b).vel.y ≤ 19 / 2 := by
  obtain ⟨-, htri, hhom, hcirc⟩ := hm
  obtain ⟨-, hthr, -, hvx, hvy, -, -, -, -⟩ := drive_fields m o0 o1 b
  obtain ⟨t0, t1⟩ := clamp_bounds o1 (1 / 5) 1 (by norm_num)
  rw [← hthr] at t0 t1
  rw [hvx, hvy]
  generalize (drive m o0 o1 b).angle = a
  generalize (drive m o0 o1 b).throttle = thr at t0 t1
  have e1 : (b.vel.x + m.cos a * thr * (1 / 2)) * (19 / 20)
      = (19 / 20) * (b.vel.x + (thr / 2) * m.cos a) := by ring
  have e2 : (b.vel.y + m.sin a * thr * (1 / 2)) * (19 / 20)
      = (19 / 20) * (b.vel.y + (thr / 2) * m.sin a) := by ring
  rw [e1, e2, hhom _ _ _ (by norm_num)]
  have hforce : m.hypot ((thr / 2) * m.cos a) ((thr / 2) * m.sin a) ≤ 1 / 2 := by
    rw [hhom _ _ _ (by linarith)]
    nlinarith [hcirc a]
  have := htri b.vel.x b.vel.y ((thr / 2) * m.cos a) ((thr / 2) * m.sin a)
  linarith

theorem drive_heading_change (m : MathFns) (hm : m.NormLike) (o0 o1 : ℚ) (b : Car)
    (hs : m.hypot b.vel.x b.vel.y ≤ 19 / 2) :
    |(drive m o0 o1 b).angle - b.angle| < 1 / 10 := by
  obtain ⟨hnn, -, -, -⟩ := hm
  obtain ⟨hst, -, hang, -, -, -, -, -, -⟩ := drive_fields m o0 o1 b
  obtain ⟨s0, s1⟩ := clamp_bounds (o0 * 2 - 1) (-1) 1 (by norm_num)
  rw [← hst] at s0 s1
  rw [hang]
  generalize (drive m o0 o1 b).steer = st at s0 s1
  have h0 := hnn b.vel.x b.vel.y
  rw [abs_lt]
  constructor <;> nlinarith

theorem ageTick_vel (m : MathFns) (dt : ℚ) (c : Car) : (ageTick m dt c).vel = c.vel := by
  unfold ageTick; dsimp only; split <;> rfl

theorem control_motion_cases (m : MathFns) (track : Track) (c : Car) :
    ((control m track c).state.vel = c.vel ∧ (control m track c).state.angle = c.angle) ∨
    ∃ o0 o1 b, b.vel = c.vel ∧ b.angle = c.angle ∧
      (control m track c).state.vel = (drive m o0 o1 b).vel ∧
      (control m track c).state.angle = (drive m o0 o1 b).angle := by
  unfold control
  dsimp only
  split
  · exact Or.inl ⟨rfl, rfl⟩
  · rename_i out brain _
    split
    · rename_i o0 o1 _ _
      obtain ⟨-, svel, sang, -, -⟩ := score_motion m track (drive m o0 o1 { c with brain := brain })
      exact Or.inr ⟨o0, o1, { c with brain := brain }, rfl, rfl, svel, sang⟩
    · exact Or.inl ⟨rfl, rfl⟩

theorem step_motion_cases (m : MathFns) (track : Track) (dt : ℚ) (c : Car) :
    ((Car.step m track dt c).state.vel = c.vel ∧ (Car.step m track dt c).state.angle = c.angle) ∨
    ∃ o0 o1 b, b.vel = c.vel ∧ b.angle = c.angle ∧
      (Car.step m track dt c).state.vel = (drive m o0 o1 b).vel ∧
      (Car.step m track dt c).state.angle = (drive m o0 o1 b).angle := by
  unfold Car.step
  split
  · exact Or.inl ⟨rfl, rfl⟩
  · dsimp only
    split
    · exact Or.inl ⟨ageTick_vel m dt c, ageTick_angle m dt c⟩
    · rename_i rs _
      obtain ⟨-, hvel, hang, -, -, -, -, -, -⟩ := sensed_fields m dt c rs
      rcases control_motion_cases m track (collisionCheck { ageTick m dt c with sensors := rs })
        with ⟨h1, h2⟩ | ⟨o0, o1, b, hb1, hb2, h1, h2⟩
      · exact Or.inl ⟨h1.trans hvel, h2.trans hang⟩
      · exact Or.inr ⟨o0, o1, b, hb1.trans hvel, hb2.trans hang, h1, h2⟩

theorem step_speed_bound (m : MathFns) (hm : m.NormLike) (track : Track) (dt : ℚ) (c : Car)
    (hs : m.hypot c.vel.x c.vel.y ≤ 19 / 2) :
    m.hypot (Car.step m track dt c).state.vel.x (Car.step m track dt c).state.vel.y ≤ 19 / 2 ∧
    |(Car.step m track dt c).state.angle - c.angle| < 1 / 10 := by
  rcases step_motion_cases m track dt c with ⟨h1, h2⟩ | ⟨o0, o1, b, hb1, hb2, h1, h2⟩
  · rw [h1, h2]
    exact ⟨hs, by simp⟩
  · rw [h1, h2, ← hb2]
    rw [← hb1] at hs
    exact ⟨drive_speed_bound m hm o0 o1 b hs, drive_heading_change m hm o0 o1 b hs⟩

theorem new_speed (m : MathFns) (hm : m.NormLike) (track : Track) (brain : Brain) (g : Nat) :
    m.hypot (Car.new track brain g).vel.x (Car.new track brain g).vel.y = 0 := by
  obtain ⟨-, -, hhom, -⟩ := hm
  have := hhom 0 0 0 (le_refl _)
  simpa using this

theorem reset_speed (m : MathFns) (hm : m.NormLike) (track : Track) (c : Car) :
    m.hypot (Car.reset m track c).vel.x (Car.reset m track c).vel.y ≤ 2 := by
  obtain ⟨-, -, hhom, hcirc⟩ := hm
  show m.hypot (m.cos track.start.angle * 2) (m.sin track.start.angle * 2) ≤ 2
  rw [mul_comm (m.cos _) 2, mul_comm (m.sin _) 2, hhom _ _ _ (by norm_num)]
  linarith [hcirc track.start.angle]

theorem evolve_population_cases (m : MathFns) (track : Track) (rng : Rng) (rate : ℚ) (s : Sim) :
    (evolve m track rng rate s).state.population = sortByFitness s.population ∨
    ∃ pop : List Car,
      (evolve m track rng rate s).state.population = pop.map (Car.reset m track) := by
  unfold evolve
  dsimp only
  rcases h0 : (sortByFitness s.population)[0]? with _ | e0
  · exact Or.inl rfl
  · rcases h1 : (sortByFitness s.population)[1]? with _ | e1
    · exact Or.inl rfl
    · dsimp only
      rcases hb : breed track rng rate (sortByFitness s.population) s.populationSize
          s.generation s.populationSize
          [Car.new track e0.brain.clone s.generation, Car.new track e1.brain.clone s.generation]
          s.cursor with ⟨_ | pop, k⟩
      · exact Or.inl rfl
      · exact Or.inr ⟨pop, rfl⟩

/-- C20: the speed stays bounded. When `Math.hypot`, `cos`, `sin` have the
properties `MathFns.NormLike` of the real functions: a living car whose speed
`hypot(vel)` is at most 9.5 before a step has speed at most 9.5 after it, for
every brain, and its heading changes by less than 0.1; a newly constructed car
has speed 0 and a reset car speed at most 2; hence in every state reached by
`init`, steps and `evolve`, every car has speed at most 9.5, and the factor
`speed/maxSpeed` of the turning formula is below 1. -/
theorem speed_stays_bounded (m : MathFns) (track : Track) (rng : Rng) (hm : m.NormLike) :
    (∀ (dt : ℚ) (c : Car), c.alive = true → m.hypot c.vel.x c.vel.y ≤ 19 / 2 →
      m.hypot (Car.step m track dt c).state.vel.x (Car.step m track dt c).state.vel.y ≤ 19 / 2 ∧
      |(Car.step m track dt c).state.angle - c.angle| < 1 / 10) ∧
    (∀ (brain : Brain) (g : Nat),
      m.hypot (Car.new track brain g).vel.x (Car.new track brain g).vel.y = 0) ∧
    (∀ c : Car, m.hypot (Car.reset m track c).vel.x (Car.reset m track c).vel.y ≤ 2) ∧
    (∀ s : Sim, Reachable m track rng s → ∀ c ∈ s.population,
      m.hypot c.vel.x c.vel.y ≤ 19 / 2 ∧ m.hypot c.vel.x c.vel.y / Car.maxSpeed < 1) := by
  refine ⟨fun dt c _ hs => step_speed_bound m hm track dt c hs,
    fun brain g => new_speed m hm track brain g,
    fun c => reset_speed m hm track c, ?_⟩
  intro s hr
  have key : ∀ c ∈ s.population, m.hypot c.vel.x c.vel.y ≤ 19 / 2 := by
    induction hr with
    | init s0 =>
      intro c hc
      rcases initLoop_mem track rng _ _ _ c hc with h | ⟨k2, rfl⟩
      · simp at h
      · rw [new_speed m hm]; norm_num
    | step s0 dt i c0 _ hget ih =>
      intro c hc
      rcases List.mem_or_eq_of_mem_set hc with h | rfl
      · exact ih c h
      · exact (step_speed_bound m hm track dt c0
          (ih c0 (List.mem_iff_getElem?.2 ⟨i, hget⟩))).1
    | evolve s0 rate _ ih =>
      intro c hc
      rcases evolve_population_cases m track rng rate s0 with h | ⟨pop, h⟩
      · rw [h] at hc
        exact ih c ((sortByFitness_perm s0.population).mem_iff.1 hc)
      · rw [h] at hc
        obtain ⟨c0, -, rfl⟩ := List.mem_map.1 hc
        linarith [reset_speed m hm track c0]
  intro c hc
  have h := key c hc
  refine ⟨h, ?_⟩
  unfold Car.maxSpeed
  rw [div_lt_one (by norm_num)]
  linarith

/-- C20 witness: the stand-ins `circleMath` on the square track. -/
theorem speed_stays_bounded_witness :
    circleMath.NormLike ∧
    ((∀ (dt : ℚ) (c : Car), c.alive = true → circleMath.hypot c.vel.x c.vel.y ≤ 19 / 2 →
      circleMath.hypot (Car.step circleMath demoTrack dt c).state.vel.x
          (Car.step circleMath demoTrack dt c).state.vel.y ≤ 19 / 2 ∧
      |(Car.step circleMath demoTrack dt c).state.angle - c.angle| < 1 / 10) ∧
    (∀ (brain : Brain) (g : Nat),
      circleMath.hypot (Car.new demoTrack brain g).vel.x (Car.new demoTrack brain g).vel.y = 0) ∧
    (∀ c : Car, circleMath.hypot (Car.reset circleMath demoTrack c).vel.x
        (Car.reset circleMath demoTrack c).vel.y ≤ 2) ∧
    (∀ s : Sim, Reachable circleMath demoTrack demoRng s → ∀ c ∈ s.population,
      circleMath.hypot c.vel.x c.vel.y ≤ 19 / 2 ∧
      circleMath.hypot c.vel.x c.vel.y / Car.maxSpeed < 1)) :=
  ⟨circleMath_normLike, speed_stays_bounded circleMath demoTrack demoRng circleMath_normLike⟩

/-! ### `buildTrack` -/

theorem getElem?_eq_some_getD (l : List Point) (i : Nat) (h : i < l.length) :
    l[i]? = some (l.getD i origin) := by
  rw [List.getD_eq_getElem?_getD, List.getElem?_eq_getElem h]
  rfl

theorem segmentLoop_length (p0 p1 p2 p3 : Point) :
    ∀ (n j : Nat) (acc : List Point),
      (segmentLoop p0 p1 p2 p3 n j acc).length = acc.length + n := by
  intro n
  induction n with
  | zero => intro j acc; rfl
  | succ n ih =>
    intro j acc
    rw [segmentLoop, ih, List.length_append, List.length_singleton]
    omega

theorem centerLoop_some (points : List Point) :
    ∀ (n i : Nat) (acc : List Point), i + n ≤ points.length →
      ∃ cl, centerLoop points n i acc = some cl ∧ cl.length = acc.length + steps * n := by
  intro n
  induction n with
  | zero => intro i acc _; exact ⟨acc, rfl, by simp⟩
  | succ n ih =>
    intro i acc hle
    have hpos : 0 < points.length := by omega
    have h0 := getElem?_eq_some_getD points _ (Nat.mod_lt (i + points.length - 1) hpos)
    have h1 := getElem?_eq_some_getD points i (by omega)
    have h2 := getElem?_eq_some_getD points _ (Nat.mod_lt (i + 1) hpos)
    have h3 := getElem?_eq_some_getD points _ (Nat.mod_lt (i + 2) hpos)
    obtain ⟨cl, hcl, hlen⟩ := ih (i + 1)
      (segmentLoop (points.getD ((i + points.length - 1) % points.length) origin)
        (points.getD i origin) (points.getD ((i + 1) % points.length) origin)
        (points.getD ((i + 2) % points.length) origin) steps 0 acc) (by omega)
    refine ⟨cl, ?_, ?_⟩
    · rw [centerLoop, h0, h1, h2, h3]
      exact hcl
    · rw [hlen, segmentLoop_length, Nat.mul_succ]
      omega

theorem wallLoop_spec (m : MathFns) (cl : List Point) (hz : NoZeroEdge m cl) :
    ∀ (n i : Nat) (t : Track), i + n = cl.length → t.centerLine = cl →
      t.innerWall.length = i → t.outerWall.length = i →
      (∀ j, j < i → t.innerWall[j]? = some (offsetPoint m cl j 1) ∧
                     t.outerWall[j]? = some (offsetPoint m cl j (-1))) →
      ∃ t2, wallLoop m n i t = .returned t2 ∧ t2.centerLine = cl ∧
        t2.innerWall.length = cl.length ∧ t2.outerWall.length = cl.length ∧
        ∀ j, j < cl.length → t2.innerWall[j]? = some (offsetPoint m cl j 1) ∧
                               t2.outerWall[j]? = some (offsetPoint m cl j (-1)) := by
  intro n
  induction n with
  | zero =>
    intro i t hi hc h1 h2 hall
    have : i = cl.length := by omega
    subst this
    exact ⟨t, rfl, hc, h1, h2, hall⟩
  | succ n ih =>
    intro i t hi hc h1 h2 hall
    have hlt : i < cl.length := by omega
    have hpos : 0 < cl.length := by omega
    have g1 := getElem?_eq_some_getD cl i hlt
    have g2 := getElem?_eq_some_getD cl _ (Nat.mod_lt (i + 1) hpos)
    have hne : m.hypot ((cl.getD ((i + 1) % cl.length) origin).x - (cl.getD i origin).x)
        ((cl.getD ((i + 1) % cl.length) origin).y - (cl.getD i origin).y) ≠ 0 := hz i hlt
    rw [wallLoop, hc, g1, g2]
    dsimp only
    rw [if_neg hne]
    apply ih (i + 1) _ (by omega) rfl
    · simp only [List.length_append, List.length_singleton, h1]
    · simp only [List.length_append, List.length_singleton, h2]
    · intro j hj
      rcases Nat.lt_succ_iff_lt_or_eq.1 hj with hj | rfl
      · obtain ⟨a, b⟩ := hall j hj
        constructor
        · show (t.innerWall ++ _)[j]? = _
          rw [List.getElem?_append_left (by omega)]; exact a
        · show (t.outerWall ++ _)[j]? = _
          rw [List.getElem?_append_left (by omega)]; exact b
      · constructor
        · show (t.innerWall ++ _)[j]? = _
          rw [List.getElem?_append_right (by omega), h1, Nat.sub_self]
          simp only [List.getElem?_cons_zero, Option.some.injEq, offsetPoint, edgeLen, edgeDx,
            edgeDy, wallOffset, Point.mk.injEq]
          constructor <;> ring
        · show (t.outerWall ++ _)[j]? = _
          rw [List.getElem?_append_right (by omega), h2, Nat.sub_self]
          simp only [List.getElem?_cons_zero, Option.some.injEq, offsetPoint, edgeLen, edgeDx,
            edgeDy, wallOffset, Point.mk.injEq]
          constructor <;> ring

theorem offsetPoint_geometry (m : MathFns) (cl : List Point) (i : Nat)
    (hne : edgeLen m cl i ≠ 0) :
    ((offsetPoint m cl i 1).x - (cl.getD i origin).x) * edgeDx cl i
      + ((offsetPoint m cl i 1).y - (cl.getD i origin).y) * edgeDy cl i = 0 ∧
    (cl.getD i origin).x = ((offsetPoint m cl i 1).x + (offsetPoint m cl i (-1)).x) / 2 ∧
    (cl.getD i origin).y = ((offsetPoint m cl i 1).y + (offsetPoint m cl i (-1)).y) / 2 ∧
    (((offsetPoint m cl i 1).x - (cl.getD i origin).x) ^ 2
      + ((offsetPoint m cl i 1).y - (cl.getD i origin).y) ^ 2) * edgeLen m cl i ^ 2
      = 45 ^ 2 * (edgeDx cl i ^ 2 + edgeDy cl i ^ 2) ∧
    (((offsetPoint m cl i (-1)).x - (cl.getD i origin).x) ^ 2
      + ((offsetPoint m cl i (-1)).y - (cl.getD i origin).y) ^ 2) * edgeLen m cl i ^ 2
      = 45 ^ 2 * (edgeDx cl i ^ 2 + edgeDy cl i ^ 2) := by
  unfold offsetPoint
  dsimp only
  generalize edgeLen m cl i = L at hne
  generalize edgeDx cl i = dx
  generalize edgeDy cl i = dy
  refine ⟨?_, ?_, ?_, ?_, ?_⟩
  · field_simp; ring
  · ring
  · ring
  · field_simp; ring
  · field_simp; ring

theorem demoMath_hypot_accuracy (x y : ℚ) :
    (1 - 1 / 2) * (x ^ 2 + y ^ 2) ≤ demoMath.hypot x y ^ 2 ∧
    demoMath.hypot x y ^ 2 ≤ (1 + 1 / 2) * (x ^ 2 + y ^ 2) := by
  show (1 - 1 / 2) * (x ^ 2 + y ^ 2) ≤ (Max.max |x| |y|) ^ 2 ∧
    (Max.max |x| |y|) ^ 2 ≤ (1 + 1 / 2) * (x ^ 2 + y ^ 2)
  have hx : |x| ^ 2 = x ^ 2 := sq_abs x
  have hy : |y| ^ 2 = y ^ 2 := sq_abs y
  have hx0 := abs_nonneg x
  have hy0 := abs_nonneg y
  rcases le_total |x| |y| with h | h
  · rw [max_eq_right h]
    have : |x| ^ 2 ≤ |y| ^ 2 := pow_le_pow_left₀ hx0 h 2
    constructor <;> nlinarith
  · rw [max_eq_left h]
    have : |y| ^ 2 ≤ |x| ^ 2 := pow_le_pow_left₀ hy0 h 2
    constructor <;> nlinarith

theorem wallLoop_returned_noZero (m : MathFns) (cl : List Point) :
    ∀ (n i : Nat) (t t2 : Track), i + n = cl.length → t.centerLine = cl →
      wallLoop m n i t = .returned t2 →
      ∀ j, i ≤ j → j < cl.length → edgeLen m cl j ≠ 0 := by
  intro n
  induction n with
  | zero =>
    intro i t t2 hi _ _ j h1 h2
    omega
  | succ n ih =>
    intro i t t2 hi hc hret j h1 h2
    have hlt : i < cl.length := by omega
    have hpos : 0 < cl.length := by omega
    have g1 := getElem?_eq_some_getD cl i hlt
    have g2 := getElem?_eq_some_getD cl _ (Nat.mod_lt (i + 1) hpos)
    rw [wallLoop, hc, g1, g2] at hret
    dsimp only at hret
    by_cases hne : m.hypot ((cl.getD ((i + 1) % cl.length) origin).x - (cl.getD i origin).x)
        ((cl.getD ((i + 1) % cl.length) origin).y - (cl.getD i origin).y) = 0
    · rw [if_pos hne] at hret
      exact absurd hret (by simp)
    · rw [if_neg hne] at hret
      rcases Nat.eq_or_lt_of_le h1 with rfl | h3
      · exact hne
      · exact ih (i + 1) _ t2 (by omega) rfl hret j h3 h2

theorem buildTrack_returned_noZero (m : MathFns) (points : List Point) (t : Track)
    (hret : buildTrack m points = .returned t) :
    NoZeroEdge m ((centerLoop points points.length 0 []).getD []) := by
  unfold buildTrack at hret
  rcases hcl : centerLoop points points.length 0 [] with _ | cl
  · rw [hcl] at hret
    exact absurd hret (by simp)
  · rw [hcl] at hret
    dsimp only at hret
    rcases hw : wallLoop m cl.length 0 { emptyTrack with centerLine := cl } with t2 | ⟨e, t2⟩
    · intro j hj
      exact wallLoop_returned_noZero m cl cl.length 0 _ t2 (by omega) rfl hw j (Nat.zero_le j) hj
    · rw [hw] at hret
      exact absurd hret (by simp)

theorem buildTrack_returns (m : MathFns) (points : List Point) (hk : 4 ≤ points.length)
    (hz : NoZeroEdge m ((centerLoop points points.length 0 []).getD [])) :
    ∃ t, buildTrack m points = .returned t ∧
      t.centerLine = (centerLoop points points.length 0 []).getD [] ∧
      t.centerLine.length = 50 * points.length ∧
      t.innerWall.length = 50 * points.length ∧
      t.outerWall.length = 50 * points.length ∧
      ∀ i, i < 50 * points.length →
        t.innerWall[i]? = some (offsetPoint m t.centerLine i 1) ∧
        t.outerWall[i]? = some (offsetPoint m t.centerLine i (-1)) ∧
        edgeLen m t.centerLine i ≠ 0 := by
  obtain ⟨cl, hcl, hlen⟩ := centerLoop_some points points.length 0 [] (by omega)
  rw [hcl] at hz
  have hz2 : NoZeroEdge m cl := hz
  have hlen2 : cl.length = 50 * points.length := by
    simpa [steps] using hlen
  obtain ⟨t2, hwall, hc2, hin, hout, hall⟩ :=
    wallLoop_spec m cl hz2 cl.length 0 { emptyTrack with centerLine := cl }
      (by omega) rfl rfl rfl (fun j hj => absurd hj (Nat.not_lt_zero j))
  have g0 := getElem?_eq_some_getD cl 0 (by omega)
  have g1 := getElem?_eq_some_getD cl 1 (by omega)
  refine ⟨{ t2 with start := ⟨(cl.getD 0 origin).x, (cl.getD 0 origin).y,
      m.atan2 ((cl.getD 1 origin).y - (cl.getD 0 origin).y)
        ((cl.getD 1 origin).x - (cl.getD 0 origin).x)⟩ }, ?_, ?_, ?_, ?_, ?_, ?_⟩
  · unfold buildTrack
    simp only [hcl, hwall, hc2, g0, g1]
  · show t2.centerLine = _
    rw [hc2, hcl]
    rfl
  · show t2.centerLine.length = _
    rw [hc2, hlen2]
  · show t2.innerWall.length = _
    rw [hin, hlen2]
  · show t2.outerWall.length = _
    rw [hout, hlen2]
  · intro i hi
    show t2.innerWall[i]? = some (offsetPoint m t2.centerLine i 1) ∧ _
    rw [hc2]
    have hi2 : i < cl.length := by omega
    obtain ⟨a, b⟩ := hall i hi2
    exact ⟨a, b, hz2 i hi2⟩

theorem scaled_distance_bounds (d2 L S e : ℚ) (hd : 0 ≤ d2) (hS : 0 ≤ S) (hL : L ≠ 0)
    (h : d2 * L ^ 2 = 45 ^ 2 * S) (h1 : (1 - e) * S ≤ L ^ 2) (h2 : L ^ 2 ≤ (1 + e) * S) :
    (1 - e) * d2 ≤ 45 ^ 2 ∧ 45 ^ 2 ≤ (1 + e) * d2 := by
  have hL2 : 0 < L ^ 2 := by positivity
  have hSpos : 0 < S := by
    rcases eq_or_lt_of_le hS with h0 | h0
    · rw [← h0] at h2
      simp only [mul_zero] at h2
      exact absurd hL2 (not_lt.2 h2)
    · exact h0
  constructor
  · have : (1 - e) * d2 * S ≤ 45 ^ 2 * S := by
      rw [← h]
      calc (1 - e) * d2 * S = d2 * ((1 - e) * S) := by ring
        _ ≤ d2 * L ^ 2 := mul_le_mul_of_nonneg_left h1 hd
    exact le_of_mul_le_mul_right this hSpos
  · have : 45 ^ 2 * S ≤ (1 + e) * d2 * S := by
      rw [← h]
      calc d2 * L ^ 2 ≤ d2 * ((1 + e) * S) := mul_le_mul_of_nonneg_left h2 hd
        _ = (1 + e) * d2 * S := by ring
    exact le_of_mul_le_mul_right this hSpos

theorem edge0_not_square (L : ℚ) : L ^ 2 ≠ 5626274733 / 312500000 := by
  intro h
  have h2 : (L ^ 2).den = 312500000 := by
    rw [h]; norm_num
  rw [Rat.den_pow] at h2
  exact Nat.not_exists_sq (show 17677 * 17677 < 312500000 by norm_num)
    (show 312500000 < (17677 + 1) * (17677 + 1) by norm_num) ⟨L.den, by rw [← h2]; ring⟩

theorem trackPoints_edge0 :
    edgeDx ((centerLoop trackPoints trackPoints.length 0 []).getD []) 0 ^ 2
      + edgeDy ((centerLoop trackPoints trackPoints.length 0 []).getD []) 0 ^ 2
      = 5626274733 / 312500000 := by
  decide!

theorem trackPoints_noZeroEdge :
    NoZeroEdge demoMath ((centerLoop trackPoints trackPoints.length 0 []).getD []) := by
  unfold NoZeroEdge
  decide!

/-- C17 counterexample: the eight shipped control points, index 0. The edge from
`centerLine[0] = (150, 360)` to `centerLine[1] = (150.129, 355.75884)` has
`dx² + dy² = 5626274733/312500000`, which is the square of no rational number;
so whatever (rational, hence also double) value `hypot(dx, dy)` takes, `buildTrack`
does not put `innerWall[0]` at distance exactly 45 from `centerLine[0]`. With the
stand-in `hypot` of `demoMath` the track is built, so the statement is not empty. -/
theorem buildTrack_distance_counterexample :
    4 ≤ trackPoints.length ∧
    (∃ t, buildTrack demoMath trackPoints = .returned t) ∧
    ¬ ∃ (m : MathFns) (t : Track) (c w : Point),
        buildTrack m trackPoints = .returned t ∧
        t.centerLine[0]? = some c ∧ t.innerWall[0]? = some w ∧
        (w.x - c.x) ^ 2 + (w.y - c.y) ^ 2 = 45 ^ 2 := by
  refine ⟨by decide, ?_, ?_⟩
  · obtain ⟨t, ht, -⟩ := buildTrack_returns demoMath trackPoints (by decide) trackPoints_noZeroEdge
    exact ⟨t, ht⟩
  · rintro ⟨m, t, c, w, hret, hc, hw, hd⟩
    have hz := buildTrack_returned_noZero m trackPoints t hret
    obtain ⟨t2, hret2, hcl, hlen, -, -, hall⟩ := buildTrack_returns m trackPoints (by decide) hz
    rw [hret] at hret2
    obtain rfl : t = t2 := by simpa using hret2
    obtain ⟨a, -, hne⟩ := hall 0 (by decide)
    have hlen0 : 0 < t.centerLine.length := by rw [hlen]; decide
    rw [getElem?_eq_some_getD t.centerLine 0 hlen0] at hc
    rw [a] at hw
    obtain rfl : t.centerLine.getD 0 origin = c := by simpa using hc
    obtain rfl : offsetPoint m t.centerLine 0 1 = w := by simpa using hw
    obtain ⟨-, -, -, p4, -⟩ := offsetPoint_geometry m t.centerLine 0 hne
    rw [hd, hcl, trackPoints_edge0] at p4
    have h45 : (45 : ℚ) ^ 2 ≠ 0 := by norm_num
    exact edge0_not_square _ (mul_left_cancel₀ h45 p4)

/-- C17, as amended: the walls are the centerline offset by 45 along the computed
normal, index for index. For `k ≥ 4` control points whose interpolated centerline
has no edge of computed length zero, `buildTrack` returns a track whose
`centerLine`, `innerWall` and `outerWall` have `50*k` points each, and for every
index `i`, `innerWall[i] = centerLine[i] + 45*n_i` and
`outerWall[i] = centerLine[i] - 45*n_i` with `n_i = (-dy, dx)/hypot(dx, dy)` for
the edge from `centerLine[i]` to `centerLine[(i+1) % 50k]`; the offset is
perpendicular to that edge and `centerLine[i]` is the midpoint of the two wall
points. The distance `d` of each wall point from its centerline point satisfies
`d² * hypot(dx,dy)² = 45² * (dx² + dy²)`: it is 45 times the ratio of the true
edge length to the computed one. Hence whenever `hypot(dx,dy)²` is within a
relative error `ε` of `dx² + dy²`, `(1-ε)*d² ≤ 45² ≤ (1+ε)*d²`; the distance is
exactly 45 where `hypot` is exact (`ε = 0`). -/
theorem buildTrack_walls (m : MathFns) (points : List Point) (hk : 4 ≤ points.length)
    (hz : NoZeroEdge m ((centerLoop points points.length 0 []).getD [])) :
    ∃ t, buildTrack m points = .returned t ∧
      t.centerLine.length = 50 * points.length ∧
      t.innerWall.length = 50 * points.length ∧
      t.outerWall.length = 50 * points.length ∧
      ∀ i, i < 50 * points.length →
        t.innerWall[i]? = some (offsetPoint m t.centerLine i 1) ∧
        t.outerWall[i]? = some (offsetPoint m t.centerLine i (-1)) ∧
        edgeLen m t.centerLine i ≠ 0 ∧
        ((offsetPoint m t.centerLine i 1).x - (t.centerLine.getD i origin).x)
            * edgeDx t.centerLine i
          + ((offsetPoint m t.centerLine i 1).y - (t.centerLine.getD i origin).y)
            * edgeDy t.centerLine i = 0 ∧
        (t.centerLine.getD i origin).x
          = ((offsetPoint m t.centerLine i 1).x + (offsetPoint m t.centerLine i (-1)).x) / 2 ∧
        (t.centerLine.getD i origin).y
          = ((offsetPoint m t.centerLine i 1).y + (offsetPoint m t.centerLine i (-1)).y) / 2 ∧
        (((offsetPoint m t.centerLine i 1).x - (t.centerLine.getD i origin).x) ^ 2
          + ((offsetPoint m t.centerLine i 1).y - (t.centerLine.getD i origin).y) ^ 2)
            * edgeLen m t.centerLine i ^ 2
          = 45 ^ 2 * (edgeDx t.centerLine i ^ 2 + edgeDy t.centerLine i ^ 2) ∧
        (((offsetPoint m t.centerLine i (-1)).x - (t.centerLine.getD i origin).x) ^ 2
          + ((offsetPoint m t.centerLine i (-1)).y - (t.centerLine.getD i origin).y) ^ 2)
            * edgeLen m t.centerLine i ^ 2
          = 45 ^ 2 * (edgeDx t.centerLine i ^ 2 + edgeDy t.centerLine i ^ 2) ∧
        (∀ ε : ℚ,
          (1 - ε) * (edgeDx t.centerLine i ^ 2 + edgeDy t.centerLine i ^ 2)
            ≤ edgeLen m t.centerLine i ^ 2 →
          edgeLen m t.centerLine i ^ 2
            ≤ (1 + ε) * (edgeDx t.centerLine i ^ 2 + edgeDy t.centerLine i ^ 2) →
          (1 - ε) * (((offsetPoint m t.centerLine i 1).x - (t.centerLine.getD i origin).x) ^ 2
            + ((offsetPoint m t.centerLine i 1).y - (t.centerLine.getD i origin).y) ^ 2)
            ≤ 45 ^ 2 ∧
          45 ^ 2 ≤ (1 + ε)
            * (((offsetPoint m t.centerLine i 1).x - (t.centerLine.getD i origin).x) ^ 2
              + ((offsetPoint m t.centerLine i 1).y - (t.centerLine.getD i origin).y) ^ 2) ∧
          (1 - ε) * (((offsetPoint m t.centerLine i (-1)).x - (t.centerLine.getD i origin).x) ^ 2
            + ((offsetPoint m t.centerLine i (-1)).y - (t.centerLine.getD i origin).y) ^ 2)
            ≤ 45 ^ 2 ∧
          45 ^ 2 ≤ (1 + ε)
            * (((offsetPoint m t.centerLine i (-1)).x - (t.centerLine.getD i origin).x) ^ 2
              + ((offsetPoint m t.centerLine i (-1)).y - (t.centerLine.getD i origin).y) ^ 2)) := by
  obtain ⟨t, hret, -, h1, h2, h3, hall⟩ := buildTrack_returns m points hk hz
  refine ⟨t, hret, h1, h2, h3, ?_⟩
  intro i hi
  obtain ⟨a, b, hne⟩ := hall i hi
  obtain ⟨p1, p2, p3, p4, p5⟩ := offsetPoint_geometry m t.centerLine i hne
  refine ⟨a, b, hne, p1, p2, p3, p4, p5, ?_⟩
  intro ε e1 e2
  have hS : 0 ≤ edgeDx t.centerLine i ^ 2 + edgeDy t.centerLine i ^ 2 := by positivity
  obtain ⟨q1, q2⟩ := scaled_distance_bounds _ _ _ ε (by positivity) hS hne p4 e1 e2
  obtain ⟨q3, q4⟩ := scaled_distance_bounds _ _ _ ε (by positivity) hS hne p5 e1 e2
  exact ⟨q1, q2, q3, q4⟩

/-- C17 witness: the eight shipped control points, which give 400 points. -/
theorem buildTrack_walls_witness :
    (4 ≤ trackPoints.length ∧ 50 * trackPoints.length = 400 ∧
      NoZeroEdge demoMath ((centerLoop trackPoints trackPoints.length 0 []).getD [])) ∧
    (∃ t, buildTrack demoMath trackPoints = .returned t ∧
      t.centerLine.length = 50 * trackPoints.length ∧
      t.innerWall.length = 50 * trackPoints.length ∧
      t.outerWall.length = 50 * trackPoints.length ∧
      ∀ i, i < 50 * trackPoints.length →
        t.innerWall[i]? = some (offsetPoint demoMath t.centerLine i 1) ∧
        t.outerWall[i]? = some (offsetPoint demoMath t.centerLine i (-1)) ∧
        edgeLen demoMath t.centerLine i ≠ 0 ∧
        ((offsetPoint demoMath t.centerLine i 1).x - (t.centerLine.getD i origin).x)
            * edgeDx t.centerLine i
          + ((offsetPoint demoMath t.centerLine i 1).y - (t.centerLine.getD i origin).y)
            * edgeDy t.centerLine i = 0 ∧
        (t.centerLine.getD i origin).x
          = ((offsetPoint demoMath t.centerLine i 1).x
              + (offsetPoint demoMath t.centerLine i (-1)).x) / 2 ∧
        (t.centerLine.getD i origin).y
          = ((offsetPoint demoMath t.centerLine i 1).y
              + (offsetPoint demoMath t.centerLine i (-1)).y) / 2 ∧
        (1 - 1 / 2)
            * (((offsetPoint demoMath t.centerLine i 1).x - (t.centerLine.getD i origin).x) ^ 2
              + ((offsetPoint demoMath t.centerLine i 1).y - (t.centerLine.getD i origin).y) ^ 2)
            ≤ 45 ^ 2 ∧
        45 ^ 2 ≤ (1 + 1 / 2)
            * (((offsetPoint demoMath t.centerLine i 1).x - (t.centerLine.getD i origin).x) ^ 2
              + ((offsetPoint demoMath t.centerLine i 1).y
                  - (t.centerLine.getD i origin).y) ^ 2)) := by
  refine ⟨⟨by decide, by decide, trackPoints_noZeroEdge⟩, ?_⟩
  obtain ⟨t, hret, h1, h2, h3, hall⟩ :=
    buildTrack_walls demoMath trackPoints (by decide) trackPoints_noZeroEdge
  refine ⟨t, hret, h1, h2, h3, ?_⟩
  intro i hi
  obtain ⟨a, b, hne, p1, p2, p3, -, -, hacc⟩ := hall i hi
  obtain ⟨e1, e2⟩ := demoMath_hypot_accuracy (edgeDx t.centerLine i) (edgeDy t.centerLine i)
  obtain ⟨q1, q2, -, -⟩ := hacc (1 / 2) e1 e2
  exact ⟨a, b, hne, p1, p2, p3, q1, q2⟩

theorem flatPoints_noZeroEdge :
    NoZeroEdge demoMath ((centerLoop flatPoints flatPoints.length 0 []).getD []) := by
  unfold NoZeroEdge
  decide!

theorem flatPoints_exact_length :
    ∀ i, i < 200 →
      edgeLen demoMath ((centerLoop flatPoints flatPoints.length 0 []).getD []) i ^ 2
        = edgeDx ((centerLoop flatPoints flatPoints.length 0 []).getD []) i ^ 2
          + edgeDy ((centerLoop flatPoints flatPoints.length 0 []).getD []) i ^ 2 := by
  decide!

/-- The walls of a track with exact edge lengths: for the four control points
`flatPoints` on the x axis, where `hypot(dx, 0) = |dx|` is exact, `buildTrack`
returns 200 points per line and every wall point is at distance exactly 45 from
its centerline point. -/
theorem flatPoints_distance_exact :
    ∃ t, buildTrack demoMath flatPoints = .returned t ∧
      ∀ i, i < 200 →
        ∃ c w v, t.centerLine[i]? = some c ∧ t.innerWall[i]? = some w ∧
          t.outerWall[i]? = some v ∧
          (w.x - c.x) ^ 2 + (w.y - c.y) ^ 2 = 45 ^ 2 ∧
          (v.x - c.x) ^ 2 + (v.y - c.y) ^ 2 = 45 ^ 2 := by
  obtain ⟨t, hret, hcl, hlen, -, -, hall⟩ :=
    buildTrack_returns demoMath flatPoints (by decide) flatPoints_noZeroEdge
  refine ⟨t, hret, ?_⟩
  intro i hi
  have hi2 : i < 50 * flatPoints.length := by simpa [flatPoints] using hi
  obtain ⟨a, b, hne⟩ := hall i hi2
  obtain ⟨-, -, -, p4, p5⟩ := offsetPoint_geometry demoMath t.centerLine i hne
  have he := flatPoints_exact_length i hi
  rw [← hcl] at he
  have hpos : edgeLen demoMath t.centerLine i ^ 2 ≠ 0 := pow_ne_zero 2 hne
  rw [← he] at p4 p5
  exact ⟨_, _, _, getElem?_eq_some_getD t.centerLine i (by omega), a, b,
    mul_right_cancel₀ hpos p4, mul_right_cancel₀ hpos p5⟩

end GeneticRacing
